import Mathlib

/-!
Shallow embedding of the serde-smile codec (a Rust implementation of the
Smile binary data format) together with proofs about its specification.

Bytes are modelled as natural numbers (always `< 256` when produced by the
embedded code); Rust `u8`/`u32`/`u64` casts and wrapping shifts are made
explicit with `% 256`, `% 2^32` and `% 2^64`.  Fallible operations return
`Except Err`.  All definitions are transcribed from the repository sources
(`src/ser/mod.rs`, `src/ser/key_serializer.rs`, `src/ser/string_cache.rs`,
`src/de/mod.rs`, `src/de/string_cache.rs`, `src/value/mod.rs`); the file and
line references are given at each definition.
-/

namespace SerdeSmile

/-- Error kinds, from `src/error.rs` (enum `ErrorKind`).  The `io` variant is
omitted (the embedded writer is a pure list, and slice readers never fail);
`invalidType` stands for the serde-level rejection produced by a visitor
default method (for example `Visitor::visit_u64` on a visitor that does not
implement it), which surfaces as a `Custom` error in the Rust code. -/
inductive Err : Type
  | custom
  | keyMustBeAString
  | eofWhileParsingValue
  | reservedToken
  | invalidStringReference
  | unterminatedVint
  | bufferLengthOverflow
  | unsupportedBigInteger
  | unsupportedBigDecimal
  | invalidUtf8
  | recursionLimitExceeded
  | trailingData
  | eofWhileParsingArray
  | unexpectedToken
  | eofWhileParsingMap
  | invalidHeader
  | unsupportedVersion
  | eofWhileParsingHeader
  | invalidType
deriving DecidableEq, Repr

/-! ## Bit-level helper lemmas -/

/-- A value below `2 ^ 7` has bit 7 clear. -/
theorem and_128_eq_zero {x : ℕ} (h : x < 128) : x &&& 128 = 0 := by
  have h7 : x.testBit 7 = false :=
    Nat.testBit_eq_false_of_lt (show x < 2 ^ 7 by omega)
  have := Nat.and_two_pow x 7
  simpa [h7] using this

/-- Masking with `0x7f` is the same as reducing mod `2 ^ 7`. -/
theorem and_127_eq_mod (x : ℕ) : x &&& 127 = x % 128 := by
  simpa using Nat.and_pow_two_sub_one_eq_mod x 7

/-- Masking with `0x7f` is the identity below `2 ^ 7`. -/
theorem and_127_eq_self {x : ℕ} (h : x < 128) : x &&& 127 = x := by
  rw [and_127_eq_mod]
  omega

/-- Setting bit 7 makes the `& 0x80` test succeed. -/
theorem lor_128_and_128 (x : ℕ) : (x ||| 128) &&& 128 ≠ 0 := by
  have h : ((x ||| 128) &&& 128) = ((x ||| 128).testBit 7).toNat * 128 := by
    simpa using Nat.and_two_pow (x ||| 128) 7
  have h2 : (x ||| 128).testBit 7 = true := by
    have : Nat.testBit 128 7 = true := by decide
    simp [Nat.testBit_or, this]
  rw [h, h2]
  simp

/-- Setting bit 7 does not change the low seven bits. -/
theorem lor_128_and_127 (x : ℕ) : (x ||| 128) &&& 127 = x &&& 127 := by
  apply Nat.eq_of_testBit_eq
  intro i
  have h127 : (127 : ℕ) = 2 ^ 7 - 1 := by norm_num
  by_cases hi : i < 7
  · have : Nat.testBit 128 i = false := by
      have : (128 : ℕ) = 2 ^ 7 := by norm_num
      rw [this, Nat.testBit_two_pow]
      simp
      omega
    simp [Nat.testBit_and, Nat.testBit_or, this]
  · have : Nat.testBit 127 i = false := by
      rw [h127, Nat.testBit_two_pow_sub_one]
      simpa using hi
    simp [Nat.testBit_and, this]

/-- Recombining the high bits `w >>> n` with the low bits `w &&& (2 ^ n - 1)`
gives back `w`. -/
theorem shiftRight_shiftLeft_or_mask (w n : ℕ) :
    ((w >>> n) <<< n) ||| (w &&& (2 ^ n - 1)) = w := by
  apply Nat.eq_of_testBit_eq
  intro i
  rw [Nat.testBit_or, Nat.testBit_and, Nat.testBit_shiftLeft, Nat.testBit_two_pow_sub_one]
  by_cases hi : i < n
  · simp [show ¬(n ≤ i) by omega, hi]
  · have : (w >>> n).testBit (i - n) = w.testBit i := by
      rw [Nat.testBit_shiftRight]
      congr 1
      omega
    simp [show n ≤ i by omega, this, show ¬(i < n) from hi]

/-- Merging one more 7-bit group into the accumulator. -/
theorem merge7 (v s : ℕ) :
    (((v >>> (s + 7)) <<< 7) ||| ((v >>> s) &&& 127)) = v >>> s := by
  have h : v >>> (s + 7) = (v >>> s) >>> 7 := by
    rw [Nat.shiftRight_add]
  rw [h]
  simpa using shiftRight_shiftLeft_or_mask (v >>> s) 7

/-- Merging the final 6-bit group into the accumulator. -/
theorem merge6 (v : ℕ) : (((v >>> 6) <<< 6) ||| (v &&& 63)) = v := by
  simpa using shiftRight_shiftLeft_or_mask v 6

theorem shiftRight_le (v s : ℕ) : v >>> s ≤ v := by
  rw [Nat.shiftRight_eq_div_pow]
  exact Nat.div_le_self v (2 ^ s)

theorem shiftLeft_shiftRight_le (w n : ℕ) : (w >>> n) <<< n ≤ w := by
  rw [Nat.shiftRight_eq_div_pow, Nat.shiftLeft_eq]
  exact Nat.div_mul_le_self w (2 ^ n)

/-! ## ZigZag folding

From `src/ser/mod.rs` (`serialize_i32` line 304, `serialize_i64` line 319)
and `src/de/mod.rs` (`zigzag_i32`, `zigzag_i64` lines 673-681).  The Rust
expressions operate on two's-complement `i32`/`i64`; the embedding carries the
resulting unsigned bit pattern as a natural number. -/

/-- Bit pattern of `((v << 1) ^ (v >> 31)) as u32` for an `i32` value `v`:
the wrapped double of `v` XORed with the sign fill. -/
def zigzag32 (v : ℤ) : ℕ :=
  (((v * 2) % 4294967296).toNat) ^^^ (if v < 0 then 4294967295 else 0)

/-- Bit pattern of `((v << 1) ^ (v >> 63)) as u64` for an `i64` value `v`. -/
def zigzag64 (v : ℤ) : ℕ :=
  (((v * 2) % 18446744073709551616).toNat) ^^^
    (if v < 0 then 18446744073709551615 else 0)

/-- Rust `zigzag_i32`: `((v >> 1) as i32) ^ (-((v & 1) as i32))` for a `u32`
argument.  XOR with `0` is the identity and XOR with `-1` is two's-complement
negation minus one, so the result is `v / 2` or `-(v / 2) - 1`. -/
def unzigzag32 (v : ℕ) : ℤ :=
  if v &&& 1 = 1 then -(((v >>> 1) : ℕ) : ℤ) - 1 else (((v >>> 1) : ℕ) : ℤ)

/-- Rust `zigzag_i64`, by the same reading as `unzigzag32`. -/
def unzigzag64 (v : ℕ) : ℤ :=
  if v &&& 1 = 1 then -(((v >>> 1) : ℕ) : ℤ) - 1 else (((v >>> 1) : ℕ) : ℤ)

/-! ## VInt encoding

`Serializer::serialize_vint`, `src/ser/mod.rs` lines 108-201: a ten-branch
match on the magnitude of the `u64` argument fills a buffer with 7-bit groups
(the final byte keeping only 6 bits), then `buf[bytes - 1] |= 0x80` marks the
final byte. -/

/-- Set bit 7 of the final byte, as `buf[bytes - 1] |= 0x80` does. -/
def markEnd (buf : List ℕ) : List ℕ :=
  buf.dropLast ++ [buf.getLastD 0 ||| 128]

/-- The byte list written by `Serializer::serialize_vint` for `v : u64`.
Each branch is the literal buffer contents from the corresponding range arm;
`as u8` casts are `% 256` and `& 0x7f` masks are `&&& 127`. -/
def serializeVint (v : ℕ) : List ℕ :=
  markEnd
    (if v ≤ 63 then
      [v % 256]
    else if v ≤ 8191 then
      [(v >>> 6) % 256, v &&& 63]
    else if v ≤ 1048575 then
      [(v >>> 13) % 256, ((v >>> 6) % 256) &&& 127, v &&& 63]
    else if v ≤ 134217727 then
      [(v >>> 20) % 256, ((v >>> 13) % 256) &&& 127, ((v >>> 6) % 256) &&& 127,
        v &&& 63]
    else if v ≤ 17179869183 then
      [(v >>> 27) % 256, ((v >>> 20) % 256) &&& 127, ((v >>> 13) % 256) &&& 127,
        ((v >>> 6) % 256) &&& 127, v &&& 63]
    else if v ≤ 2199023255551 then
      [(v >>> 34) % 256, ((v >>> 27) % 256) &&& 127, ((v >>> 20) % 256) &&& 127,
        ((v >>> 13) % 256) &&& 127, ((v >>> 6) % 256) &&& 127, v &&& 63]
    else if v ≤ 281474976710655 then
      [(v >>> 41) % 256, ((v >>> 34) % 256) &&& 127, ((v >>> 27) % 256) &&& 127,
        ((v >>> 20) % 256) &&& 127, ((v >>> 13) % 256) &&& 127,
        ((v >>> 6) % 256) &&& 127, v &&& 63]
    else if v ≤ 36028797018963967 then
      [(v >>> 48) % 256, ((v >>> 41) % 256) &&& 127, ((v >>> 34) % 256) &&& 127,
        ((v >>> 27) % 256) &&& 127, ((v >>> 20) % 256) &&& 127,
        ((v >>> 13) % 256) &&& 127, ((v >>> 6) % 256) &&& 127, v &&& 63]
    else if v ≤ 4611686018427387903 then
      [(v >>> 55) % 256, ((v >>> 48) % 256) &&& 127, ((v >>> 41) % 256) &&& 127,
        ((v >>> 34) % 256) &&& 127, ((v >>> 27) % 256) &&& 127,
        ((v >>> 20) % 256) &&& 127, ((v >>> 13) % 256) &&& 127,
        ((v >>> 6) % 256) &&& 127, v &&& 63]
    else
      [(v >>> 62) % 256, ((v >>> 55) % 256) &&& 127, ((v >>> 48) % 256) &&& 127,
        ((v >>> 41) % 256) &&& 127, ((v >>> 34) % 256) &&& 127,
        ((v >>> 27) % 256) &&& 127, ((v >>> 20) % 256) &&& 127,
        ((v >>> 13) % 256) &&& 127, ((v >>> 6) % 256) &&& 127, v &&& 63])

/-- `Deserializer::parse_vint`, `src/de/mod.rs` lines 216-231, as a function
on the remaining input list.  Each byte contributes its low seven bits; a
byte with bit 7 set terminates the loop and shifts by 6 instead of 7.  The
accumulator lives in a `u64`, hence the `% 2 ^ 64`.  Running out of the byte
limit yields `unterminatedVint`; running out of input yields the
`eofWhileParsingValue` error that `parse_u8` produces. -/
def parseVintList : ℕ → ℕ → List ℕ → Except Err (ℕ × List ℕ)
  | 0, _, _ => .error .unterminatedVint
  | _ + 1, _, [] => .error .eofWhileParsingValue
  | limit + 1, acc, b :: rest =>
    let acc2 :=
      ((acc <<< (if b &&& 128 ≠ 0 then 6 else 7)) % 18446744073709551616) |||
        (b &&& 127)
    if b &&& 128 ≠ 0 then .ok (acc2, rest) else parseVintList limit acc2 rest

theorem parseVintList_term (limit acc b : ℕ) (rest : List ℕ)
    (hb : b &&& 128 ≠ 0) :
    parseVintList (limit + 1) acc (b :: rest) =
      .ok ((((acc <<< 6) % 18446744073709551616) ||| (b &&& 127)), rest) := by
  simp [parseVintList, hb]

theorem parseVintList_nonterm (limit acc b : ℕ) (rest : List ℕ)
    (hb : b < 128) :
    parseVintList (limit + 1) acc (b :: rest) =
      parseVintList limit (((acc <<< 7) % 18446744073709551616) ||| b) rest := by
  have h0 : b &&& 128 = 0 := and_128_eq_zero hb
  simp [parseVintList, h0, and_127_eq_self hb]

/-- The middle 7-bit groups of a VInt encoding, most significant first:
`groupList v n = [((v >>> (6 + 7*(n-1))) % 256) &&& 127, …, ((v >>> 6) % 256) &&& 127]`. -/
def groupList (v : ℕ) : ℕ → List ℕ
  | 0 => []
  | n + 1 => (((v >>> (6 + 7 * n)) % 256) &&& 127) :: groupList v n

theorem groupList_entry_lt (v s : ℕ) : ((v >>> s) % 256) &&& 127 < 128 :=
  Nat.lt_succ_of_le (Nat.and_le_right)

theorem mod_256_and_127 (x : ℕ) : (x % 256) &&& 127 = x &&& 127 := by
  rw [and_127_eq_mod, and_127_eq_mod]
  exact Nat.mod_mod_of_dvd x (by norm_num)

/-- Parsing the middle groups and the terminal byte of a VInt encoding of `v`
starting from the matching accumulator recovers `v`. -/
theorem parseVint_groups (v : ℕ) (hv : v < 18446744073709551616) :
    ∀ (n limit : ℕ) (rest : List ℕ), n + 1 ≤ limit →
      parseVintList limit (v >>> (6 + 7 * n))
          (groupList v n ++ ((v &&& 63) ||| 128) :: rest) =
        .ok (v, rest) := by
  intro n
  induction n with
  | zero =>
    intro limit rest hlim
    obtain ⟨l, rfl⟩ : ∃ l, limit = l + 1 := ⟨limit - 1, by omega⟩
    rw [groupList]
    rw [List.nil_append]
    rw [parseVintList_term _ _ _ _ (lor_128_and_128 _)]
    have hle : (v >>> (6 + 7 * 0)) <<< 6 ≤ v := by
      simpa using shiftLeft_shiftRight_le v 6
    rw [Nat.mod_eq_of_lt (lt_of_le_of_lt hle hv)]
    rw [lor_128_and_127]
    have h63 : (v &&& 63) &&& 127 = v &&& 63 := by
      rw [Nat.and_assoc, show (63 &&& 127 : ℕ) = 63 by decide]
    rw [h63]
    have : (6 + 7 * 0) = 6 := by norm_num
    rw [this]
    rw [merge6]
  | succ n ih =>
    intro limit rest hlim
    obtain ⟨l, rfl⟩ : ∃ l, limit = l + 1 := ⟨limit - 1, by omega⟩
    rw [groupList]
    rw [List.cons_append]
    rw [parseVintList_nonterm _ _ _ _ (groupList_entry_lt v _)]
    have hle : (v >>> (6 + 7 * (n + 1))) <<< 7 ≤ v := by
      have h1 : v >>> (6 + 7 * (n + 1)) = (v >>> (6 + 7 * n)) >>> 7 := by
        rw [← Nat.shiftRight_add, show (6 + 7 * n) + 7 = 6 + 7 * (n + 1) by omega]
      calc (v >>> (6 + 7 * (n + 1))) <<< 7 ≤ v >>> (6 + 7 * n) := by
            rw [h1]; exact shiftLeft_shiftRight_le _ 7
        _ ≤ v := shiftRight_le v _
    rw [Nat.mod_eq_of_lt (lt_of_le_of_lt hle hv)]
    rw [mod_256_and_127]
    have hmerge : ((v >>> (6 + 7 * (n + 1))) <<< 7) ||| ((v >>> (6 + 7 * n)) &&& 127)
        = v >>> (6 + 7 * n) := by
      have : 6 + 7 * (n + 1) = (6 + 7 * n) + 7 := by omega
      rw [this]
      exact merge7 v (6 + 7 * n)
    rw [hmerge]
    exact ih l rest (by omega)

theorem markEnd_append (xs : List ℕ) (x : ℕ) :
    markEnd (xs ++ [x]) = xs ++ [x ||| 128] := by
  simp [markEnd]

/-- A branch-generic step: if `serializeVint v` has the shape
`first group :: middle groups ++ [terminal]`, the decoder recovers `v`. -/
theorem vint_roundtrip_of_shape (v n : ℕ) (hv : v < 18446744073709551616)
    (henc : serializeVint v =
      ((v >>> (6 + 7 * n)) % 256) :: (groupList v n ++ [(v &&& 63) ||| 128]))
    (hb0 : v >>> (6 + 7 * n) < 128) (hlim : n + 2 ≤ 10) (rest : List ℕ) :
    parseVintList 10 0 (serializeVint v ++ rest) = .ok (v, rest) := by
  rw [henc]
  rw [List.cons_append]
  have hmod : (v >>> (6 + 7 * n)) % 256 = v >>> (6 + 7 * n) :=
    Nat.mod_eq_of_lt (by omega)
  rw [hmod]
  rw [parseVintList_nonterm _ _ _ _ hb0]
  have hz : ((0 <<< 7) % 18446744073709551616) ||| (v >>> (6 + 7 * n))
      = v >>> (6 + 7 * n) := by
    simp
  rw [hz]
  have hre : (groupList v n ++ [(v &&& 63) ||| 128]) ++ rest
      = groupList v n ++ ((v &&& 63) ||| 128) :: rest := by
    simp
  rw [hre]
  exact parseVint_groups v hv n 9 rest (by omega)

/-- Round-trip of the VInt codec: decoding an encoded `u64` with the 10-byte
limit returns the value and leaves the following bytes unconsumed. -/
theorem serializeVint_roundtrip (v : ℕ) (hv : v < 18446744073709551616)
    (rest : List ℕ) :
    parseVintList 10 0 (serializeVint v ++ rest) = .ok (v, rest) := by
  by_cases h1 : v ≤ 63
  · have henc : serializeVint v = [(v % 256) ||| 128] := by
      simp only [serializeVint]
      rw [if_pos h1]
      simp [markEnd]
    rw [henc, List.cons_append, parseVintList_term _ _ _ _ (lor_128_and_128 _)]
    rw [Nat.mod_eq_of_lt (show v < 256 by omega), lor_128_and_127,
      and_127_eq_self (show v < 128 by omega)]
    simp
  by_cases h2 : v ≤ 8191
  · refine vint_roundtrip_of_shape v 0 hv ?_ ?_ (by omega) rest
    · simp only [serializeVint]
      rw [if_neg h1, if_pos h2]
      norm_num [markEnd, groupList]
    · rw [Nat.shiftRight_eq_div_pow]
      norm_num
      omega
  by_cases h3 : v ≤ 1048575
  · refine vint_roundtrip_of_shape v 1 hv ?_ ?_ (by omega) rest
    · simp only [serializeVint]
      rw [if_neg h1, if_neg h2, if_pos h3]
      norm_num [markEnd, groupList]
    · rw [Nat.shiftRight_eq_div_pow]
      norm_num
      omega
  by_cases h4 : v ≤ 134217727
  · refine vint_roundtrip_of_shape v 2 hv ?_ ?_ (by omega) rest
    · simp only [serializeVint]
      rw [if_neg h1, if_neg h2, if_neg h3, if_pos h4]
      norm_num [markEnd, groupList]
    · rw [Nat.shiftRight_eq_div_pow]
      norm_num
      omega
  by_cases h5 : v ≤ 17179869183
  · refine vint_roundtrip_of_shape v 3 hv ?_ ?_ (by omega) rest
    · simp only [serializeVint]
      rw [if_neg h1, if_neg h2, if_neg h3, if_neg h4, if_pos h5]
      norm_num [markEnd, groupList]
    · rw [Nat.shiftRight_eq_div_pow]
      norm_num
      omega
  by_cases h6 : v ≤ 2199023255551
  · refine vint_roundtrip_of_shape v 4 hv ?_ ?_ (by omega) rest
    · simp only [serializeVint]
      rw [if_neg h1, if_neg h2, if_neg h3, if_neg h4, if_neg h5, if_pos h6]
      norm_num [markEnd, groupList]
    · rw [Nat.shiftRight_eq_div_pow]
      norm_num
      omega
  by_cases h7 : v ≤ 281474976710655
  · refine vint_roundtrip_of_shape v 5 hv ?_ ?_ (by omega) rest
    · simp only [serializeVint]
      rw [if_neg h1, if_neg h2, if_neg h3, if_neg h4, if_neg h5, if_neg h6,
        if_pos h7]
      norm_num [markEnd, groupList]
    · rw [Nat.shiftRight_eq_div_pow]
      norm_num
      omega
  by_cases h8 : v ≤ 36028797018963967
  · refine vint_roundtrip_of_shape v 6 hv ?_ ?_ (by omega) rest
    · simp only [serializeVint]
      rw [if_neg h1, if_neg h2, if_neg h3, if_neg h4, if_neg h5, if_neg h6,
        if_neg h7, if_pos h8]
      norm_num [markEnd, groupList]
    · rw [Nat.shiftRight_eq_div_pow]
      norm_num
      omega
  by_cases h9 : v ≤ 4611686018427387903
  · refine vint_roundtrip_of_shape v 7 hv ?_ ?_ (by omega) rest
    · simp only [serializeVint]
      rw [if_neg h1, if_neg h2, if_neg h3, if_neg h4, if_neg h5, if_neg h6,
        if_neg h7, if_neg h8, if_pos h9]
      norm_num [markEnd, groupList]
    · rw [Nat.shiftRight_eq_div_pow]
      norm_num
      omega
  · refine vint_roundtrip_of_shape v 8 hv ?_ ?_ (by omega) rest
    · simp only [serializeVint]
      rw [if_neg h1, if_neg h2, if_neg h3, if_neg h4, if_neg h5, if_neg h6,
        if_neg h7, if_neg h8, if_neg h9]
      norm_num [markEnd, groupList]
    · rw [Nat.shiftRight_eq_div_pow]
      norm_num
      omega

/-- A syntactically well-formed VInt byte sequence: every leading byte has
bit 7 clear, and the final byte has bit 7 set and bit 6 clear (the terminal
byte of the wire format carries only its low six bits). -/
def vintWellFormed : List ℕ → Bool
  | [] => false
  | [b] => decide (128 ≤ b) && decide (b ≤ 191)
  | b :: c :: rest => decide (b < 128) && vintWellFormed (c :: rest)

theorem and_128_ne_zero {b : ℕ} (h1 : 128 ≤ b) (h2 : b < 256) :
    b &&& 128 ≠ 0 := by
  have ht : b.testBit 7 = true := by
    rw [Nat.testBit_to_div_mod]
    have hd : b / 2 ^ 7 = 1 := by
      have : (2 : ℕ) ^ 7 = 128 := by norm_num
      rw [this]
      omega
    rw [hd]
    decide
  have := Nat.and_two_pow b 7
  rw [ht] at this
  simp only [Bool.toNat_true, one_mul] at this
  norm_num at this
  omega

/-- A value accepted by `parse_vint` after consuming a well-formed sequence of
`L` bytes is below `2 ^ (7 L - 1)` (each leading byte contributes 7 bits, the
terminal byte 6). -/
theorem vint_wf_parse_bound :
    ∀ (pre : List ℕ), vintWellFormed pre = true →
      ∀ (limit acc m : ℕ), acc < 2 ^ m → ∀ (rest : List ℕ) (u : ℕ),
        parseVintList limit acc (pre ++ rest) = .ok (u, rest) →
        u < 2 ^ (m + 7 * (pre.length - 1) + 6) := by
  intro pre
  induction pre with
  | nil => intro hwf; simp [vintWellFormed] at hwf
  | cons b tail ih =>
    intro hwf limit acc m hacc rest u hp
    cases tail with
    | nil =>
      simp only [vintWellFormed, Bool.and_eq_true, decide_eq_true_eq] at hwf
      obtain ⟨hb1, hb2⟩ := hwf
      obtain ⟨l, rfl⟩ : ∃ l, limit = l + 1 := by
        cases limit with
        | zero => simp [parseVintList] at hp
        | succ l => exact ⟨l, rfl⟩
      rw [List.cons_append, List.nil_append,
        parseVintList_term _ _ _ _ (and_128_ne_zero hb1 (by omega))] at hp
      have hu : (((acc <<< 6) % 18446744073709551616) ||| (b &&& 127)) = u := by
        simpa using hp
      subst hu
      have hsh : (acc <<< 6) % 18446744073709551616 < 2 ^ (m + 6) := by
        have h1 : acc <<< 6 < 2 ^ (m + 6) := by
          rw [Nat.shiftLeft_eq, pow_add]
          have : (2 : ℕ) ^ 6 = 64 := by norm_num
          rw [this]
          have : (2 : ℕ) ^ 6 = 64 := by norm_num
          nlinarith [Nat.mod_lt acc (show 0 < 2 ^ m from Nat.pos_pow_of_pos m (by norm_num))]
        exact lt_of_le_of_lt (Nat.mod_le _ _) h1
      have hlow : b &&& 127 < 2 ^ (m + 6) := by
        have h1 : b &&& 127 ≤ 127 := Nat.and_le_right
        have h2 : (64 : ℕ) ≤ 2 ^ (m + 6) := by
          calc (64 : ℕ) = 2 ^ 6 := by norm_num
            _ ≤ 2 ^ (m + 6) := Nat.pow_le_pow_right (by norm_num) (by omega)
        have h3 : b &&& 127 = b % 128 := and_127_eq_mod b
        omega
      have := Nat.or_lt_two_pow hsh hlow
      simpa using this
    | cons c tail2 =>
      simp only [vintWellFormed, Bool.and_eq_true, decide_eq_true_eq] at hwf
      obtain ⟨hb, hwf2⟩ := hwf
      obtain ⟨l, rfl⟩ : ∃ l, limit = l + 1 := by
        cases limit with
        | zero => simp [parseVintList] at hp
        | succ l => exact ⟨l, rfl⟩
      rw [List.cons_append, parseVintList_nonterm _ _ _ _ hb] at hp
      have hacc2 : ((acc <<< 7) % 18446744073709551616) ||| b < 2 ^ (m + 7) := by
        have hsh : (acc <<< 7) % 18446744073709551616 < 2 ^ (m + 7) := by
          have h1 : acc <<< 7 < 2 ^ (m + 7) := by
            rw [Nat.shiftLeft_eq, pow_add]
            have : (2 : ℕ) ^ 7 = 128 := by norm_num
            nlinarith [hacc]
          exact lt_of_le_of_lt (Nat.mod_le _ _) h1
        have hlow : b < 2 ^ (m + 7) := by
          have : (128 : ℕ) ≤ 2 ^ (m + 7) := by
            calc (128 : ℕ) = 2 ^ 7 := by norm_num
              _ ≤ 2 ^ (m + 7) := Nat.pow_le_pow_right (by norm_num) (by omega)
          omega
        exact Nat.or_lt_two_pow hsh hlow
      have := ih (by simpa [vintWellFormed] using hwf2) l _ (m + 7) hacc2 rest u hp
      have hexp : (m + 7) + 7 * ((c :: tail2).length - 1) + 6
          = m + 7 * ((b :: c :: tail2).length - 1) + 6 := by
        simp only [List.length_cons]
        omega
      rw [hexp] at this
      exact this

theorem markEnd_length (buf : List ℕ) : (markEnd buf).length = buf.dropLast.length + 1 := by
  simp [markEnd]

/-- The encoder never uses more than `L` bytes for a value below
`2 ^ (7 L - 1)`. -/
theorem serializeVint_length_le (u L : ℕ) (h1 : 1 ≤ L)
    (h : u < 2 ^ (7 * L - 1)) : (serializeVint u).length ≤ L := by
  by_cases c1 : u ≤ 63
  · have : (serializeVint u).length = 1 := by
      simp only [serializeVint]
      rw [if_pos c1]
      simp [markEnd]
    omega
  by_cases c2 : u ≤ 8191
  · have hlen : (serializeVint u).length = 2 := by
      simp only [serializeVint]
      rw [if_neg c1, if_pos c2]
      simp [markEnd]
    rw [hlen]
    by_contra hc
    have hp : (2 : ℕ) ^ (7 * L - 1) ≤ 2 ^ 6 :=
      Nat.pow_le_pow_right (by norm_num) (by omega)
    have h64 : (2 : ℕ) ^ 6 = 64 := by norm_num
    omega
  by_cases c3 : u ≤ 1048575
  · have hlen : (serializeVint u).length = 3 := by
      simp only [serializeVint]
      rw [if_neg c1, if_neg c2, if_pos c3]
      simp [markEnd]
    rw [hlen]
    by_contra hc
    have hp : (2 : ℕ) ^ (7 * L - 1) ≤ 2 ^ 13 :=
      Nat.pow_le_pow_right (by norm_num) (by omega)
    have hn : (2 : ℕ) ^ 13 = 8192 := by norm_num
    omega
  by_cases c4 : u ≤ 134217727
  · have hlen : (serializeVint u).length = 4 := by
      simp only [serializeVint]
      rw [if_neg c1, if_neg c2, if_neg c3, if_pos c4]
      simp [markEnd]
    rw [hlen]
    by_contra hc
    have hp : (2 : ℕ) ^ (7 * L - 1) ≤ 2 ^ 20 :=
      Nat.pow_le_pow_right (by norm_num) (by omega)
    have hn : (2 : ℕ) ^ 20 = 1048576 := by norm_num
    omega
  by_cases c5 : u ≤ 17179869183
  · have hlen : (serializeVint u).length = 5 := by
      simp only [serializeVint]
      rw [if_neg c1, if_neg c2, if_neg c3, if_neg c4, if_pos c5]
      simp [markEnd]
    rw [hlen]
    by_contra hc
    have hp : (2 : ℕ) ^ (7 * L - 1) ≤ 2 ^ 27 :=
      Nat.pow_le_pow_right (by norm_num) (by omega)
    have hn : (2 : ℕ) ^ 27 = 134217728 := by norm_num
    omega
  by_cases c6 : u ≤ 2199023255551
  · have hlen : (serializeVint u).length = 6 := by
      simp only [serializeVint]
      rw [if_neg c1, if_neg c2, if_neg c3, if_neg c4, if_neg c5, if_pos c6]
      simp [markEnd]
    rw [hlen]
    by_contra hc
    have hp : (2 : ℕ) ^ (7 * L - 1) ≤ 2 ^ 34 :=
      Nat.pow_le_pow_right (by norm_num) (by omega)
    have hn : (2 : ℕ) ^ 34 = 17179869184 := by norm_num
    omega
  by_cases c7 : u ≤ 281474976710655
  · have hlen : (serializeVint u).length = 7 := by
      simp only [serializeVint]
      rw [if_neg c1, if_neg c2, if_neg c3, if_neg c4, if_neg c5, if_neg c6,
        if_pos c7]
      simp [markEnd]
    rw [hlen]
    by_contra hc
    have hp : (2 : ℕ) ^ (7 * L - 1) ≤ 2 ^ 41 :=
      Nat.pow_le_pow_right (by norm_num) (by omega)
    have hn : (2 : ℕ) ^ 41 = 2199023255552 := by norm_num
    omega
  by_cases c8 : u ≤ 36028797018963967
  · have hlen : (serializeVint u).length = 8 := by
      simp only [serializeVint]
      rw [if_neg c1, if_neg c2, if_neg c3, if_neg c4, if_neg c5, if_neg c6,
        if_neg c7, if_pos c8]
      simp [markEnd]
    rw [hlen]
    by_contra hc
    have hp : (2 : ℕ) ^ (7 * L - 1) ≤ 2 ^ 48 :=
      Nat.pow_le_pow_right (by norm_num) (by omega)
    have hn : (2 : ℕ) ^ 48 = 281474976710656 := by norm_num
    omega
  by_cases c9 : u ≤ 4611686018427387903
  · have hlen : (serializeVint u).length = 9 := by
      simp only [serializeVint]
      rw [if_neg c1, if_neg c2, if_neg c3, if_neg c4, if_neg c5, if_neg c6,
        if_neg c7, if_neg c8, if_pos c9]
      simp [markEnd]
    rw [hlen]
    by_contra hc
    have hp : (2 : ℕ) ^ (7 * L - 1) ≤ 2 ^ 55 :=
      Nat.pow_le_pow_right (by norm_num) (by omega)
    have hn : (2 : ℕ) ^ 55 = 36028797018963968 := by norm_num
    omega
  · have hlen : (serializeVint u).length = 10 := by
      simp only [serializeVint]
      rw [if_neg c1, if_neg c2, if_neg c3, if_neg c4, if_neg c5, if_neg c6,
        if_neg c7, if_neg c8, if_neg c9]
      simp [markEnd]
    rw [hlen]
    by_contra hc
    have hp : (2 : ℕ) ^ (7 * L - 1) ≤ 2 ^ 62 :=
      Nat.pow_le_pow_right (by norm_num) (by omega)
    have hn : (2 : ℕ) ^ 62 = 4611686018427387904 := by norm_num
    omega

/-- Minimality over well-formed VInt sequences: no well-formed sequence
shorter than the encoder output decodes to the same value. -/
theorem vint_minimal (pre rest : List ℕ) (u : ℕ)
    (hwf : vintWellFormed pre = true)
    (hp : parseVintList 10 0 (pre ++ rest) = .ok (u, rest)) :
    (serializeVint u).length ≤ pre.length := by
  have hL : 1 ≤ pre.length := by
    cases pre with
    | nil => simp [vintWellFormed] at hwf
    | cons b tail => simp
  have hb := vint_wf_parse_bound pre hwf 10 0 0 (by norm_num) rest u hp
  have hexp : (0 + 7 * (pre.length - 1) + 6) = 7 * pre.length - 1 := by omega
  rw [hexp] at hb
  exact serializeVint_length_le u pre.length hL hb

/-! ## 7-bit-safe binary packing

`Serializer::serialize_7_bit_binary`, `src/ser/mod.rs` lines 230-256: the
length as a VInt, then each full chunk of seven source bytes becomes eight
output bytes; afterwards the remainder loop fills a seven-byte scratch and
`write_all(&buf[..it.remainder().len() + 1])` is executed unconditionally
(also when the remainder is empty). -/

/-- The remainder loop of `serialize_7_bit_binary`: iteration `i` ORs
`b >> (i + 1)` into the pending byte and leaves `(b << (6 - i)) & 0x7f` as the
next pending byte; the final pending byte is flushed, so an empty remainder
still yields the single byte `buf[0] = 0`. -/
def pack7TailAux (i carry : ℕ) : List ℕ → List ℕ
  | [] => [carry]
  | b :: rest =>
    (carry ||| (b >>> (i + 1))) ::
      pack7TailAux (i + 1) (((b <<< (6 - i)) % 256) &&& 127) rest

/-- Chunks of exactly seven bytes are packed into eight 7-bit bytes; fewer
than seven remaining bytes go through the remainder loop. -/
def pack7Body : List ℕ → List ℕ
  | c0 :: c1 :: c2 :: c3 :: c4 :: c5 :: c6 :: rest =>
    (c0 >>> 1) ::
    ((((c0 <<< 6) % 256) ||| (c1 >>> 2)) &&& 127) ::
    ((((c1 <<< 5) % 256) ||| (c2 >>> 3)) &&& 127) ::
    ((((c2 <<< 4) % 256) ||| (c3 >>> 4)) &&& 127) ::
    ((((c3 <<< 3) % 256) ||| (c4 >>> 5)) &&& 127) ::
    ((((c4 <<< 2) % 256) ||| (c5 >>> 6)) &&& 127) ::
    ((((c5 <<< 1) % 256) ||| (c6 >>> 7)) &&& 127) ::
    (c6 &&& 127) ::
    pack7Body rest
  | r => pack7TailAux 0 0 r

/-- The full output of `serialize_7_bit_binary v`. -/
def serialize7BitBinary (v : List ℕ) : List ℕ :=
  serializeVint v.length ++ pack7Body v

/-- The chunk loop of `Deserializer::parse_7_bit_binary`, `src/de/mod.rs`
lines 270-281: eight input bytes produce seven output bytes by pairwise
shift-and-OR (`u8` shifts wrap, hence the `% 256`). -/
def unpack8Chunks : List ℕ → List ℕ
  | i0 :: i1 :: i2 :: i3 :: i4 :: i5 :: i6 :: i7 :: rest =>
    (((i0 <<< 1) % 256) ||| (i1 >>> 6)) ::
    (((i1 <<< 2) % 256) ||| (i2 >>> 5)) ::
    (((i2 <<< 3) % 256) ||| (i3 >>> 4)) ::
    (((i3 <<< 4) % 256) ||| (i4 >>> 3)) ::
    (((i4 <<< 5) % 256) ||| (i5 >>> 2)) ::
    (((i5 <<< 6) % 256) ||| (i6 >>> 1)) ::
    (((i6 <<< 7) % 256) ||| i7) ::
    unpack8Chunks rest
  | _ => []

/-- The remainder loop of `parse_7_bit_binary` (lines 283-290):
`out[i] = in[i] << (i + 1) | in[i + 1] >> (6 - i)`. -/
def unpackTailAux (i : ℕ) : List ℕ → List ℕ
  | a :: b :: rest =>
    (((a <<< (i + 1)) % 256) ||| (b >>> (6 - i))) :: unpackTailAux (i + 1) (b :: rest)
  | _ => []

/-- The remainder bytes after first undoing the right-alignment of the final
byte (`buf[in_base + remainder] <<= 7 - remainder`). -/
def unpackTail (rem : ℕ) (r : List ℕ) : List ℕ :=
  unpackTailAux 0 (r.dropLast ++ [((r.getLastD 0) <<< (7 - rem)) % 256])

/-- `Deserializer::parse_7_bit_binary` (lines 251-297) on the remaining input
list: read the raw length as a VInt, compute the encoded length
`8 * (len / 7) + (rem == 0 ? 0 : rem + 1)` with a `u64` overflow check, read
that many bytes and unpack them, truncating the output to the raw length. -/
def parse7BitList (input : List ℕ) : Except Err (List ℕ × List ℕ) :=
  match parseVintList 10 0 input with
  | .error e => .error e
  | .ok (rawLen, rest) =>
    let chunks := rawLen / 7
    let rem := rawLen % 7
    let encodedRem := if rem = 0 then 0 else rem + 1
    if chunks * 8 + encodedRem < 18446744073709551616 then
      let encodedLen := chunks * 8 + encodedRem
      if encodedLen ≤ rest.length then
        let buf := rest.take encodedLen
        let front := unpack8Chunks (buf.take (chunks * 8))
        let out :=
          if rem = 0 then front
          else front ++ unpackTail rem (buf.drop (chunks * 8))
        .ok (out.take rawLen, rest.drop encodedLen)
      else .error .eofWhileParsingValue
    else .error .bufferLengthOverflow

/-! ## Serializer state

`Serializer` and `Builder`, `src/ser/mod.rs` lines 17-106, with the writer
modelled as the list of bytes written so far, and the writer-side
`StringCache` (`src/ser/string_cache.rs`) as an association list from string
bytes to the `u16` insertion index. -/

abbrev SCache := List (List ℕ × ℕ)

/-- Writer-side `StringCache::get`. -/
def scacheGet (c : SCache) (s : List ℕ) : Option ℕ :=
  (c.find? fun p => p.1 = s).map fun p => p.2

/-- Writer-side `StringCache::intern`: clear at capacity 1024, then insert
with the current entry count as index. -/
def scacheIntern (c : SCache) (s : List ℕ) : SCache :=
  let c2 := if 1024 ≤ c.length then [] else c
  (s, c2.length) :: c2

structure SerState where
  written : List ℕ
  rawBinary : Bool
  sharedStrings : Option SCache
  sharedProperties : Option SCache
deriving DecidableEq

structure Builder where
  rawBinary : Bool
  sharedStrings : Bool
  sharedProperties : Bool
deriving DecidableEq

/-- `Serializer::builder()`, `src/ser/mod.rs` lines 80-88: the field defaults
of the builder (note `raw_binary: true` in this source). -/
def Serializer.builder : Builder :=
  { rawBinary := true, sharedStrings := false, sharedProperties := true }

/-- The header flag byte assembled by `Builder::build` (lines 43-52). -/
def buildFlags (b : Builder) : ℕ :=
  ((if b.rawBinary then 4 else 0) ||| (if b.sharedStrings then 2 else 0)) |||
    (if b.sharedProperties then 1 else 0)

/-- `Builder::build` (lines 39-70): write the four header bytes
`[b':', b')', b'\n', flags]` immediately and set up the caches. -/
def Builder.build (b : Builder) : SerState :=
  { written := [0x3a, 0x29, 0x0a, buildFlags b]
    rawBinary := b.rawBinary
    sharedStrings := if b.sharedStrings then some [] else none
    sharedProperties := if b.sharedProperties then some [] else none }

/-- Append bytes to the writer. -/
def writeBytes (bs : List ℕ) (st : SerState) : SerState :=
  { st with written := st.written ++ bs }

/-- All bytes of the string are ASCII (`str::is_ascii`). -/
def isAsciiList (v : List ℕ) : Bool :=
  v.all fun b => decide (b < 128)

/-- `Serializer::serialize_shared_str` (lines 203-228): probe the value-string
cache; on a hit write a short (`index + 1`) or long (`0xEC | hi, lo`)
back-reference and report `true`; on a miss intern and report `false`. -/
def serializeSharedStr (v : List ℕ) (st : SerState) : Bool × SerState :=
  match st.sharedStrings with
  | none => (false, st)
  | some cache =>
    if 64 < v.length then (false, st)
    else
      match scacheGet cache v with
      | some backref =>
        if backref ≤ 30 then (true, writeBytes [backref + 1] st)
        else (true, writeBytes [0xec ||| (backref >>> 8), backref % 256] st)
      | none => (false, { st with sharedStrings := some (scacheIntern cache v) })

/-- `Serializer::serialize_str` (lines 398-430). -/
def serializeStrSt (v : List ℕ) (st : SerState) : SerState :=
  if v.isEmpty then writeBytes [0x20] st
  else
    match serializeSharedStr v st with
    | (true, st2) => st2
    | (false, st2) =>
      let fams := if isAsciiList v then (0x40, 0x60, 0xe0) else (0x80, 0xa0, 0xe4)
      if v.length ≤ 32 then
        writeBytes ((fams.1 ||| (v.length - 1)) :: v) st2
      else if v.length ≤ 64 then
        writeBytes ((fams.2.1 ||| (v.length - 33)) :: v) st2
      else
        writeBytes ((fams.2.2 :: v) ++ [0xfc]) st2

/-- `Serializer::serialize_bytes` (lines 432-441): raw `0xFD` framing when
`raw_binary` is set, otherwise `0xE8` plus 7-bit packing. -/
def serializeBytesSt (v : List ℕ) (st : SerState) : SerState :=
  if st.rawBinary then writeBytes ((0xfd :: serializeVint v.length) ++ v) st
  else writeBytes (0xe8 :: serialize7BitBinary v) st

/-- Bytes of `Serializer::serialize_i32` (lines 303-312); note the
`zigzag <= 32` comparison of this source. -/
def serializeI32Bytes (v : ℤ) : List ℕ :=
  let zigzag := zigzag32 v
  if zigzag ≤ 32 then [0xc0 + zigzag] else 0x24 :: serializeVint zigzag

/-- Bytes of `Serializer::serialize_i64` (lines 314-323): narrow to 32 bits
when `i32::try_from` succeeds, else `0x25` plus the 64-bit ZigZag VInt. -/
def serializeI64Bytes (v : ℤ) : List ℕ :=
  if -2147483648 ≤ v ∧ v ≤ 2147483647 then serializeI32Bytes v
  else 0x25 :: serializeVint (zigzag64 v)

/-- Big-endian `n`-byte representation (`to_be_bytes`). -/
def beBytes : ℕ → ℕ → List ℕ
  | 0, _ => []
  | n + 1, v => beBytes n (v >>> 8) ++ [v % 256]

/-- Bytes of `Serializer::serialize_u64` (lines 346-351): values above
`i64::MAX` are emitted as a big integer whose payload is `v.to_be_bytes()`
(eight bytes, with no sign byte prepended). -/
def serializeU64Bytes (v : ℕ) : List ℕ :=
  if v ≤ 9223372036854775807 then serializeI64Bytes (Int.ofNat v)
  else 0x26 :: serialize7BitBinary (beBytes 8 v)

/-- Bytes of `Serializer::serialize_u128` (lines 353-360): this source tries
`i64::try_from` (not `i128::try_from`) and otherwise emits sixteen
big-endian payload bytes with no sign byte. -/
def serializeU128Bytes (v : ℕ) : List ℕ :=
  if v ≤ 9223372036854775807 then serializeI64Bytes (Int.ofNat v)
  else 0x26 :: serialize7BitBinary (beBytes 16 v)

/-- Bytes of `Serializer::serialize_i128` (lines 326-331): narrow to 64 bits
when possible, else the sixteen two's-complement big-endian bytes. -/
def serializeI128Bytes (v : ℤ) : List ℕ :=
  if -9223372036854775808 ≤ v ∧ v ≤ 9223372036854775807 then serializeI64Bytes v
  else 0x26 :: serialize7BitBinary (beBytes 16 ((v % 340282366920938463463374607431768211456).toNat))

/-- Bytes of `Serializer::serialize_f32` (lines 363-374), on the IEEE bit
pattern: token `0x28` and five septets, least significant first in the shift
amounts 0, 7, 14, 21, 28. -/
def serializeF32Bytes (bits : ℕ) : List ℕ :=
  [0x28, (bits % 256) &&& 127, ((bits >>> 7) % 256) &&& 127,
    ((bits >>> 14) % 256) &&& 127, ((bits >>> 21) % 256) &&& 127,
    ((bits >>> 28) % 256) &&& 127]

/-- Bytes of `Serializer::serialize_f64` (lines 376-392). -/
def serializeF64Bytes (bits : ℕ) : List ℕ :=
  [0x29, (bits % 256) &&& 127, ((bits >>> 7) % 256) &&& 127,
    ((bits >>> 14) % 256) &&& 127, ((bits >>> 21) % 256) &&& 127,
    ((bits >>> 28) % 256) &&& 127, ((bits >>> 35) % 256) &&& 127,
    ((bits >>> 42) % 256) &&& 127, ((bits >>> 49) % 256) &&& 127,
    ((bits >>> 56) % 256) &&& 127, ((bits >>> 63) % 256) &&& 127]

/-! ## Key serialization

`KeySerializer`, `src/ser/key_serializer.rs`. -/

/-- `KeySerializer::serialize_shared_property` (lines 27-59): probe the
property-name cache; hits of index `<= 63` write `0x40 + index`, larger hits
write `0x30 | hi, lo`. -/
def serializeSharedProperty (v : List ℕ) (st : SerState) : Bool × SerState :=
  match st.sharedProperties with
  | none => (false, st)
  | some cache =>
    if 64 < v.length then (false, st)
    else
      match scacheGet cache v with
      | some backref =>
        if backref ≤ 63 then (true, writeBytes [0x40 + backref] st)
        else (true, writeBytes [0x30 ||| (backref >>> 8), backref % 256] st)
      | none => (false, { st with sharedProperties := some (scacheIntern cache v) })

/-- `KeySerializer::serialize_maybe_static_str` (lines 61-92): empty key
`0x20`; otherwise cache probe, then ASCII short keys `0x80 + len - 1`,
non-ASCII short keys `0xC0 + len - 2` for `len < 57`, and the long form
`0x34 … 0xFC`. -/
def serializeKeyStrSt (v : List ℕ) (st : SerState) : SerState :=
  if v.isEmpty then writeBytes [0x20] st
  else
    match serializeSharedProperty v st with
    | (true, st2) => st2
    | (false, st2) =>
      if v.length ≤ 64 ∧ isAsciiList v then
        writeBytes ((0x80 + v.length - 1) :: v) st2
      else if v.length < 57 then
        writeBytes ((0xc0 + v.length - 2) :: v) st2
      else
        writeBytes ((0x34 :: v) ++ [0xfc]) st2

/-- Decimal digit bytes of a natural number, most significant first; the fuel
argument bounds the division recursion and is always sufficient at `n`. -/
def natDecAux : ℕ → ℕ → List ℕ
  | 0, _ => []
  | fuel + 1, n => if n = 0 then [] else natDecAux fuel (n / 10) ++ [n % 10 + 48]

/-- Decimal ASCII rendering of a natural number (`itoa` for unsigned). -/
def natDec (n : ℕ) : List ℕ :=
  if n = 0 then [48] else natDecAux n n

/-- Decimal ASCII rendering of an integer (`itoa::Buffer::format`): optional
minus sign, then the digits of the absolute value, no padding. -/
def intDec (v : ℤ) : List ℕ :=
  if v < 0 then 45 :: natDec (-v).toNat else natDec v.toNat

/-- `KeySerializer::serialize_int` (lines 18-25): format the integer in
base ten with `itoa` and serialize the resulting string as a key. -/
def serializeIntKeySt (v : ℤ) (st : SerState) : SerState :=
  serializeKeyStrSt (intDec v) st

/-! ## The value model

The event vocabulary of the codec, following `Value` in `src/value/mod.rs`
plus the remaining visitor events `parse_value` can emit (`visit_u64`,
`visit_i128`, `visit_u128` from the big-integer fast paths).  Strings are
UTF-8 byte lists and floats are carried as their IEEE bit patterns; maps are
ordered key-value lists (`IndexMap`). -/

inductive Value : Type
  | null
  | boolean (b : Bool)
  | integer (v : ℤ)
  | long (v : ℤ)
  | ulong (v : ℕ)
  | int128 (v : ℤ)
  | uint128 (v : ℕ)
  | bigInteger (bs : List ℕ)
  | float (bits : ℕ)
  | double (bits : ℕ)
  | bigDecimal (scale : ℤ) (bs : List ℕ)
  | string (s : List ℕ)
  | binary (bs : List ℕ)
  | array (vs : List Value)
  | object (kvs : List ((List ℕ) × Value))

/-! ## Value encoding

`impl Serialize for Value` (`src/value/mod.rs` lines 44-65) driving the
`Serializer` of `src/ser/mod.rs`: scalars go through the serialize methods
embedded above, sequences write `0xF8 … 0xF9` (`serialize_seq` line 497 and
`SerializeSeq::end` line 571), maps write `0xFA … 0xFB` (`serialize_map`
line 526 and `SerializeMap::end` line 658) with keys through the
`KeySerializer`.  The `bigInteger`/`bigDecimal` constructors are encoded by
the big-number pass-through (`serialize_big_integer`, lines 258-261, emitting
`0x26` plus 7-bit packed bytes; `0x2A` plus ZigZag scale plus packed bytes
for decimals) as performed by the adapter serializers
(`src/ser/big_integer_serializer.rs`); the `ulong`/`int128`/`uint128` events
take the corresponding `serialize_u64`/`serialize_i128`/`serialize_u128`
paths. -/

mutual

def encodeValueSt : Value → SerState → SerState
  | .null, st => writeBytes [0x21] st
  | .boolean b, st => writeBytes [if b then 0x23 else 0x22] st
  | .integer v, st => writeBytes (serializeI32Bytes v) st
  | .long v, st => writeBytes (serializeI64Bytes v) st
  | .ulong v, st => writeBytes (serializeU64Bytes v) st
  | .int128 v, st => writeBytes (serializeI128Bytes v) st
  | .uint128 v, st => writeBytes (serializeU128Bytes v) st
  | .bigInteger bs, st => writeBytes (0x26 :: serialize7BitBinary bs) st
  | .float bits, st => writeBytes (serializeF32Bytes bits) st
  | .double bits, st => writeBytes (serializeF64Bytes bits) st
  | .bigDecimal scale bs, st =>
    writeBytes ((0x2a :: serializeVint (zigzag32 scale)) ++ serialize7BitBinary bs) st
  | .string s, st => serializeStrSt s st
  | .binary bs, st => serializeBytesSt bs st
  | .array vs, st => writeBytes [0xf9] (encodeSeqSt vs (writeBytes [0xf8] st))
  | .object kvs, st => writeBytes [0xfb] (encodeObjSt kvs (writeBytes [0xfa] st))

def encodeSeqSt : List Value → SerState → SerState
  | [], st => st
  | v :: vs, st => encodeSeqSt vs (encodeValueSt v st)

def encodeObjSt : List ((List ℕ) × Value) → SerState → SerState
  | [], st => st
  | (k, v) :: kvs, st => encodeObjSt kvs (encodeValueSt v (serializeKeyStrSt k st))

end

/-- `to_vec` with the default `Serializer::new` configuration: build (which
writes the header) and encode one value. -/
def toVec (v : Value) : List ℕ :=
  (encodeValueSt v (Builder.build Serializer.builder)).written

/-- `Serializer::end` (`src/ser/mod.rs` lines 102-106): write the `0xFF`
end-of-stream token. -/
def serializerEnd (st : SerState) : SerState :=
  writeBytes [0xff] st

/-! ## Deserializer state

`Deserializer`, `src/de/mod.rs` lines 67-141: remaining input, remaining
recursion depth, and the two optional reader-side caches
(`src/de/string_cache.rs`, a growable vector indexed by insertion order). -/

structure DeState where
  input : List ℕ
  depth : ℕ
  sharedStrings : Option (List (List ℕ))
  sharedProperties : Option (List (List ℕ))
deriving DecidableEq

/-- A deserializer computation: Rust methods take `&mut self` and return
`Result`, so the embedding always returns the final state alongside the
`Except` result. -/
def DeM (α : Type) : Type := DeState → Except Err α × DeState

def deThrow (e : Err) : DeM α := fun st => (.error e, st)

def deOk (a : α) : DeM α := fun st => (.ok a, st)

/-- Reader-side `StringCache::intern`: clear at capacity 1024, then push. -/
def rcacheIntern (c : List (List ℕ)) (s : List ℕ) : List (List ℕ) :=
  (if 1024 ≤ c.length then [] else c) ++ [s]

/-- `Deserializer::parse_u8` (lines 195-199): one byte or
`eofWhileParsingValue`. -/
def parseU8 : DeM ℕ := fun st =>
  match st.input with
  | [] => (.error .eofWhileParsingValue, st)
  | b :: rest => (.ok b, { st with input := rest })

/-- `Read::read(n)`: the next `n` bytes, or the `eofWhileParsingValue` error
its callers produce from `None`. -/
def readN (n : ℕ) : DeM (List ℕ) := fun st =>
  if n ≤ st.input.length then
    (.ok (st.input.take n), { st with input := st.input.drop n })
  else (.error .eofWhileParsingValue, st)

/-- `Read::read_until(end)`: the bytes before the next sentinel, consuming
the sentinel, or the `eofWhileParsingValue` error its callers produce from
`None` (in which case the reader position is unchanged, matching
`SliceRead::read_until`). -/
def readUntil (e : ℕ) : DeM (List ℕ) := fun st =>
  match st.input.findIdx? fun b => b == e with
  | some i => (.ok (st.input.take i), { st with input := st.input.drop (i + 1) })
  | none => (.error .eofWhileParsingValue, st)

/-- `Deserializer::parse_vint` lifted to the state monad.  Errors are
terminal for the call, so the reader position recorded after an error is
never observed; the embedding leaves it at the call start. -/
def parseVintM (limit : ℕ) : DeM ℕ := fun st =>
  match parseVintList limit 0 st.input with
  | .ok (v, rest) => (.ok v, { st with input := rest })
  | .error e => (.error e, st)

/-- `Deserializer::parse_7_bit_binary` lifted to the state monad. -/
def parse7BitM : DeM (List ℕ) := fun st =>
  match parse7BitList st.input with
  | .ok (bs, rest) => (.ok bs, { st with input := rest })
  | .error e => (.error e, st)

/-- `Deserializer::recursion_checked` (lines 182-193): decrement the
remaining depth, fail with `recursionLimitExceeded` when it reaches zero,
otherwise run the body and increment the depth again whether or not the body
succeeded. -/
def recursionChecked (f : DeM α) : DeM α := fun st =>
  let st2 : DeState := { st with depth := st.depth - 1 }
  if st2.depth = 0 then (.error .recursionLimitExceeded, st2)
  else
    let r := f st2
    (r.1, { r.2 with depth := r.2.depth + 1 })

/-- UTF-8 continuation byte (`10xxxxxx`). -/
def utf8Cont (c : ℕ) : Bool := decide (128 ≤ c) && decide (c ≤ 191)

/-- One-pass UTF-8 validation (`str::from_utf8`), with fuel bounding the
recursion; each step consumes at least one byte so fuel equal to the length
is always sufficient. -/
def utf8Fuel : ℕ → List ℕ → Bool
  | 0, l => l.isEmpty
  | _ + 1, [] => true
  | fuel + 1, b :: rest =>
    if b < 128 then utf8Fuel fuel rest
    else if b < 194 then false
    else if b < 224 then
      match rest with
      | c1 :: rest2 => utf8Cont c1 && utf8Fuel fuel rest2
      | [] => false
    else if b < 240 then
      match rest with
      | c1 :: c2 :: rest2 =>
        (if b = 224 then decide (160 ≤ c1) && decide (c1 ≤ 191)
         else if b = 237 then decide (128 ≤ c1) && decide (c1 ≤ 159)
         else utf8Cont c1) && utf8Cont c2 && utf8Fuel fuel rest2
      | _ => false
    else if b < 245 then
      match rest with
      | c1 :: c2 :: c3 :: rest2 =>
        (if b = 240 then decide (144 ≤ c1) && decide (c1 ≤ 191)
         else if b = 244 then decide (128 ≤ c1) && decide (c1 ≤ 143)
         else utf8Cont c1) && utf8Cont c2 && utf8Cont c3 && utf8Fuel fuel rest2
      | _ => false
    else false

def isValidUtf8 (l : List ℕ) : Bool := utf8Fuel l.length l

/-- `Deserializer::parse_shared_string` (lines 201-214): look the reference
up in the value-string cache; a missing cache or index is
`invalidStringReference`. -/
def parseSharedStringM (reference : ℕ) : DeM Value := fun st =>
  match st.sharedStrings with
  | some cache =>
    match cache.get? reference with
    | some s => (.ok (.string s), st)
    | none => (.error .invalidStringReference, st)
  | none => (.error .invalidStringReference, st)

/-- The interning step of `parse_short_string`: when the value-string cache
is enabled and the string is at most 64 bytes, intern it. -/
def internSharedValues (s : List ℕ) (st : DeState) : DeState :=
  match st.sharedStrings with
  | some cache =>
    if s.length ≤ 64 then { st with sharedStrings := some (rcacheIntern cache s) }
    else st
  | none => st

/-- `Deserializer::parse_short_string` (lines 400-430): read exactly `len`
bytes, validate UTF-8, intern eligible strings, and emit the string. -/
def parseShortStringM (len : ℕ) : DeM Value := fun st =>
  match readN len st with
  | (.ok buf, st2) =>
    if isValidUtf8 buf then (.ok (.string buf), internSharedValues buf st2)
    else (.error .invalidUtf8, st2)
  | (.error e, st2) => (.error e, st2)

/-- `Deserializer::parse_long_string` (lines 432-450): read until the `0xFC`
terminator and validate UTF-8; long strings are not interned. -/
def parseLongStringM : DeM Value := fun st =>
  match readUntil 0xfc st with
  | (.ok buf, st2) =>
    if isValidUtf8 buf then (.ok (.string buf), st2)
    else (.error .invalidUtf8, st2)
  | (.error e, st2) => (.error e, st2)

/-- `Deserializer::parse_binary` (lines 452-461). -/
def parseBinaryM : DeM Value := fun st =>
  match parse7BitM st with
  | (.ok buf, st2) => (.ok (.binary buf), st2)
  | (.error e, st2) => (.error e, st2)

/-- `Deserializer::parse_raw_binary` (lines 504-519).  The `usize`
conversion cannot fail on a 64-bit target since the parsed VInt is already
below `2 ^ 64`. -/
def parseRawBinaryM : DeM Value := fun st =>
  match parseVintM 10 st with
  | (.ok len, st2) =>
    match readN len st2 with
    | (.ok buf, st3) => (.ok (.binary buf), st3)
    | (.error e, st3) => (.error e, st3)
  | (.error e, st2) => (.error e, st2)

/-- `Deserializer::parse_i32` (lines 233-240): 5-byte-limit VInt, truncated
`as u32`, then ZigZag decoding, emitted through `visit_i32`. -/
def parseI32M : DeM Value := fun st =>
  match parseVintM 5 st with
  | (.ok v, st2) => (.ok (.integer (unzigzag32 (v % 4294967296))), st2)
  | (.error e, st2) => (.error e, st2)

/-- `Deserializer::parse_i64` (lines 242-249). -/
def parseI64M : DeM Value := fun st =>
  match parseVintM 10 st with
  | (.ok v, st2) => (.ok (.long (unzigzag64 v)), st2)
  | (.error e, st2) => (.error e, st2)

/-- Big-endian value of a byte list. -/
def beNat (bs : List ℕ) : ℕ := bs.foldl (fun a b => a * 256 + b) 0

/-- Two's-complement reading of a big-endian payload, as produced by
`sign_extend` (lines 299-302) followed by `i64::from_be_bytes` or
`i128::from_be_bytes`: when the leading payload bit is set the filled
pattern denotes `beNat bs - 2 ^ (8 len)`. -/
def signExtendBe (bs : List ℕ) : ℤ :=
  if 128 ≤ bs.headD 0 then (beNat bs : ℤ) - 2 ^ (8 * bs.length) else (beNat bs : ℤ)

/-- `Deserializer::parse_big_integer` (lines 304-349): unpack the payload,
then narrow: at most 8 bytes sign-extend to an `i64` event; 9 bytes with a
leading zero are a `u64` event; at most 16 bytes an `i128` event; 17 bytes
with a leading zero a `u128` event; anything else (and the empty payload) is
handed over as an opaque big-integer event (`visit_map` with
`BigIntegerDeserializer`, which yields `BigInteger(buf)`). -/
def parseBigIntegerM : DeM Value := fun st =>
  match parse7BitM st with
  | (.ok buf, st2) =>
    if buf.isEmpty then (.ok (.bigInteger buf), st2)
    else if buf.length ≤ 8 then (.ok (.long (signExtendBe buf)), st2)
    else if buf.length = 9 ∧ buf.headD 0 = 0 then
      (.ok (.ulong (beNat (buf.drop 1))), st2)
    else if buf.length ≤ 16 then (.ok (.int128 (signExtendBe buf)), st2)
    else if buf.length = 17 ∧ buf.headD 0 = 0 then
      (.ok (.uint128 (beNat (buf.drop 1))), st2)
    else (.ok (.bigInteger buf), st2)
  | (.error e, st2) => (.error e, st2)

/-- `Deserializer::parse_f32` (lines 351-366): five septets shifted by
28, 21, 14, 7, 0 into a `u32` bit pattern (the first shift wraps). -/
def parseF32M : DeM Value := fun st =>
  match readN 5 st with
  | (.ok buf, st2) =>
    let b := fun i => buf.getD i 0
    (.ok (.float ((((b 0) <<< 28) % 4294967296) ||| ((b 1) <<< 21) |||
      ((b 2) <<< 14) ||| ((b 3) <<< 7) ||| (b 4))), st2)
  | (.error e, st2) => (.error e, st2)

/-- `Deserializer::parse_f64` (lines 368-388): ten septets shifted by
63, 56, 49, 42, 35, 28, 21, 14, 7, 0 into a `u64` bit pattern. -/
def parseF64M : DeM Value := fun st =>
  match readN 10 st with
  | (.ok buf, st2) =>
    let b := fun i => buf.getD i 0
    (.ok (.double ((((b 0) <<< 63) % 18446744073709551616) ||| ((b 1) <<< 56) |||
      ((b 2) <<< 49) ||| ((b 3) <<< 42) ||| ((b 4) <<< 35) ||| ((b 5) <<< 28) |||
      ((b 6) <<< 21) ||| ((b 7) <<< 14) ||| ((b 8) <<< 7) ||| (b 9))), st2)
  | (.error e, st2) => (.error e, st2)

/-- `Deserializer::parse_big_decimal` (lines 390-398) through
`BigDecimalDeserializer` (`src/de/big_decimal_deserializer.rs`): the scale is
a 5-byte-limit VInt ZigZag-decoded at 32 bits, the unscaled value a 7-bit
packed payload. -/
def parseBigDecimalM : DeM Value := fun st =>
  match parseVintM 5 st with
  | (.ok sv, st2) =>
    match parse7BitM st2 with
    | (.ok bs, st3) => (.ok (.bigDecimal (unzigzag32 (sv % 4294967296)) bs), st3)
    | (.error e, st3) => (.error e, st3)
  | (.error e, st2) => (.error e, st2)

/-- `Deserializer::parse_long_shared_string` (lines 463-474). -/
def parseLongSharedStringM (referenceHi : ℕ) : DeM Value := fun st =>
  match parseU8 st with
  | (.ok lo, st2) => parseSharedStringM ((referenceHi <<< 8) ||| lo) st2
  | (.error e, st2) => (.error e, st2)

/-! ## Key parsing

`KeyDeserializer::parse_str`, `src/de/key_deserializer.rs` lines 79-97. -/

/-- `KeyDeserializer::parse_shared_str`: index into the property-name
cache. -/
def parseKeySharedM (reference : ℕ) : DeM (List ℕ) := fun st =>
  match st.sharedProperties with
  | some cache =>
    match cache.get? reference with
    | some s => (.ok s, st)
    | none => (.error .invalidStringReference, st)
  | none => (.error .invalidStringReference, st)

/-- The interning step of `parse_str_inner`: strings of at most 64 bytes are
interned into the property-name cache when it is enabled. -/
def internSharedProps (s : List ℕ) (st : DeState) : DeState :=
  if s.length ≤ 64 then
    match st.sharedProperties with
    | some cache => { st with sharedProperties := some (rcacheIntern cache s) }
    | none => st
  else st

/-- `KeyDeserializer::parse_short_str` via `parse_str_inner`. -/
def parseKeyShortM (len : ℕ) : DeM (List ℕ) := fun st =>
  match readN len st with
  | (.ok buf, st2) =>
    if isValidUtf8 buf then (.ok buf, internSharedProps buf st2)
    else (.error .invalidUtf8, st2)
  | (.error e, st2) => (.error e, st2)

/-- `KeyDeserializer::parse_long_str` via `parse_str_inner`. -/
def parseKeyLongM : DeM (List ℕ) := fun st =>
  match readUntil 0xfc st with
  | (.ok buf, st2) =>
    if isValidUtf8 buf then (.ok buf, internSharedProps buf st2)
    else (.error .invalidUtf8, st2)
  | (.error e, st2) => (.error e, st2)

/-- `KeyDeserializer::parse_str` token dispatch (lines 79-97). -/
def parseKeyM : DeM (List ℕ) := fun st =>
  match parseU8 st with
  | (.ok token, st2) =>
    (if token ≤ 0x1f then deThrow .reservedToken
     else if token = 0x20 then deOk []
     else if token ≤ 0x2f then deThrow .reservedToken
     else if token ≤ 0x33 then
       (fun st3 =>
         match parseU8 st3 with
         | (.ok lo, st4) => parseKeySharedM (((token - 0x30) <<< 8) ||| lo) st4
         | (.error e, st4) => (.error e, st4))
     else if token = 0x34 then parseKeyLongM
     else if token ≤ 0x39 then deThrow .reservedToken
     else if token = 0x3a then deThrow .unexpectedToken
     else if token ≤ 0x3f then deThrow .reservedToken
     else if token ≤ 0x7f then parseKeySharedM (token - 0x40)
     else if token ≤ 0xbf then parseKeyShortM (token - 127)
     else if token ≤ 0xf7 then parseKeyShortM (token - 190)
     else if token ≤ 0xfa then deThrow .reservedToken
     else if token = 0xfb then deThrow .unexpectedToken
     else deThrow .reservedToken) st2
  | (.error e, st2) => (.error e, st2)

/-! ## Token dispatch and container parsing

`Deserializer::parse_value` (`src/de/mod.rs` lines 521-563), with the
sequence and map visitors of `Value` (`ValueVisitor::visit_seq` /
`visit_map` in `src/value/mod.rs` driving `SeqAccess` / `MapAccess` of
`src/de/mod.rs` lines 683-737).  The functions are fueled: every recursive
call strictly decreases the fuel, and every parsing step consumes at least
one input byte, so a fuel exceeding twice the input length never runs out;
`fromSlice` below chooses such a fuel.  Fuel exhaustion returns the
`eofWhileParsingValue` error. -/

/-- The closing step of the body of `parse_array`: after the elements,
`reader.next()` must yield the `0xF9` closer (`Some(0xf9)` ok, `Some(_)`
trailing data, `None` EOF while parsing the array). -/
def finishArray (r : Except Err (List Value) × DeState) : Except Err Value × DeState :=
  match r with
  | (.ok vs, st2) =>
    match st2.input with
    | [] => (.error .eofWhileParsingArray, st2)
    | b :: rest =>
      if b = 0xf9 then (.ok (.array vs), { st2 with input := rest })
      else (.error .trailingData, { st2 with input := rest })
  | (.error e, st2) => (.error e, st2)

/-- The closing step of the body of `parse_map`: the `0xFB` closer. -/
def finishMap (r : Except Err (List ((List ℕ) × Value)) × DeState) :
    Except Err Value × DeState :=
  match r with
  | (.ok kvs, st2) =>
    match st2.input with
    | [] => (.error .eofWhileParsingMap, st2)
    | b :: rest =>
      if b = 0xfb then (.ok (.object kvs), { st2 with input := rest })
      else (.error .trailingData, { st2 with input := rest })
  | (.error e, st2) => (.error e, st2)

mutual

/-- `Deserializer::parse_value`: consume the lead byte and dispatch, one
`if` branch per match arm of lines 525-562.  The `0xF8`/`0xFA` arms are
`parse_array`/`parse_map` (lines 476-502): `recursion_checked` around the
element collection and the closer check. -/
def parseValueF : ℕ → DeM Value
  | 0 => fun st => (.error .eofWhileParsingValue, st)
  | f + 1 => fun st =>
    match parseU8 st with
    | (.ok token, st2) =>
      (if token = 0x00 then deThrow .reservedToken
       else if token ≤ 0x1f then parseSharedStringM (token - 1)
       else if token = 0x20 then deOk (.string [])
       else if token = 0x21 then deOk .null
       else if token = 0x22 then deOk (.boolean false)
       else if token = 0x23 then deOk (.boolean true)
       else if token = 0x24 then parseI32M
       else if token = 0x25 then parseI64M
       else if token = 0x26 then parseBigIntegerM
       else if token = 0x27 then deThrow .reservedToken
       else if token = 0x28 then parseF32M
       else if token = 0x29 then parseF64M
       else if token = 0x2a then parseBigDecimalM
       else if token ≤ 0x3f then deThrow .reservedToken
       else if token ≤ 0x5f then parseShortStringM (token - 63)
       else if token ≤ 0x7f then parseShortStringM (token - 63)
       else if token ≤ 0x9f then parseShortStringM (token - 126)
       else if token ≤ 0xbf then parseShortStringM (token - 126)
       else if token ≤ 0xdf then deOk (.integer (unzigzag32 (token - 0xc0)))
       else if token = 0xe0 then parseLongStringM
       else if token ≤ 0xe3 then deThrow .reservedToken
       else if token = 0xe4 then parseLongStringM
       else if token ≤ 0xe7 then deThrow .reservedToken
       else if token = 0xe8 then parseBinaryM
       else if token ≤ 0xeb then deThrow .reservedToken
       else if token ≤ 0xef then parseLongSharedStringM (token - 0xec)
       else if token ≤ 0xf7 then deThrow .reservedToken
       else if token = 0xf8 then
         recursionChecked (fun st3 => finishArray (parseSeqElemsF f st3))
       else if token = 0xf9 then deThrow .unexpectedToken
       else if token = 0xfa then
         recursionChecked (fun st3 => finishMap (parseMapEntriesF f st3))
       else if token = 0xfb then deThrow .unexpectedToken
       else if token = 0xfc then deThrow .unexpectedToken
       else if token = 0xfd then parseRawBinaryM
       else if token = 0xfe then deThrow .reservedToken
       else deThrow .eofWhileParsingValue) st2
    | (.error e, st2) => (.error e, st2)

/-- `SeqAccess::next_element_seed` looped by `ValueVisitor::visit_seq`:
peek, stop before `0xF9`, fail on EOF, otherwise parse an element. -/
def parseSeqElemsF : ℕ → DeM (List Value)
  | 0 => fun st => (.error .eofWhileParsingValue, st)
  | f + 1 => fun st =>
    match st.input.head? with
    | none => (.error .eofWhileParsingArray, st)
    | some b =>
      if b = 0xf9 then (.ok [], st)
      else
        match parseValueF f st with
        | (.ok v, st2) =>
          match parseSeqElemsF f st2 with
          | (.ok vs, st3) => (.ok (v :: vs), st3)
          | (.error e, st3) => (.error e, st3)
        | (.error e, st2) => (.error e, st2)

/-- `MapAccess::next_key_seed` / `next_value_seed` looped by
`ValueVisitor::visit_map`: peek, stop before `0xFB`, fail on EOF, otherwise
parse a key through the key-token table and then a value. -/
def parseMapEntriesF : ℕ → DeM (List ((List ℕ) × Value))
  | 0 => fun st => (.error .eofWhileParsingValue, st)
  | f + 1 => fun st =>
    match st.input.head? with
    | none => (.error .eofWhileParsingMap, st)
    | some b =>
      if b = 0xfb then (.ok [], st)
      else
        match parseKeyM st with
        | (.ok k, st2) =>
          match parseValueF f st2 with
          | (.ok v, st3) =>
            match parseMapEntriesF f st3 with
            | (.ok kvs, st4) => (.ok ((k, v) :: kvs), st4)
            | (.error e, st4) => (.error e, st4)
          | (.error e, st3) => (.error e, st3)
        | (.error e, st2) => (.error e, st2)

end

/-- `Deserializer::parse_array` (lines 476-488) as the composition the
`0xF8` dispatch branch uses: `recursion_checked` around element collection
and the closer check. -/
def parseArrayF (f : ℕ) : DeM Value :=
  recursionChecked (fun st => finishArray (parseSeqElemsF f st))

/-- `Deserializer::parse_map` (lines 490-502), similarly. -/
def parseMapF (f : ℕ) : DeM Value :=
  recursionChecked (fun st => finishMap (parseMapEntriesF f st))

/-- `Deserializer::new` (lines 114-141): read and validate the four header
bytes, reject a nonzero version nibble, and set up the caches from the flag
bits; the recursion budget starts at 128. -/
def newDeserializer (bytes : List ℕ) : Except Err DeState :=
  match bytes with
  | m1 :: m2 :: m3 :: info :: rest =>
    if m1 = 0x3a ∧ m2 = 0x29 ∧ m3 = 0x0a then
      if info &&& 0xf0 ≠ 0 then .error .unsupportedVersion
      else
        .ok { input := rest
              depth := 128
              sharedStrings := if info &&& 0x02 ≠ 0 then some [] else none
              sharedProperties := if info &&& 0x01 ≠ 0 then some [] else none }
    else .error .invalidHeader
  | _ => .error .eofWhileParsingHeader

/-- `Deserializer::end` (lines 174-180): accept `0xFF` or EOF; any other
byte is trailing data. -/
def deEnd (st : DeState) : Except Err Unit :=
  match st.input with
  | [] => .ok ()
  | b :: _ => if b = 0xff then .ok () else .error .trailingData

/-- `from_slice` (lines 29-37) at the event level: validate the header,
parse one value with `parse_value` dispatch, then check `end`.  The fuel
`2 * length + 2` strictly dominates the recursion (each step consumes at
least one byte and loses at most two units of fuel). -/
def fromSlice (bytes : List ℕ) : Except Err Value :=
  match newDeserializer bytes with
  | .error e => .error e
  | .ok st =>
    match parseValueF (2 * st.input.length + 2) st with
    | (.ok v, st2) =>
      match deEnd st2 with
      | .ok _ => .ok v
      | .error e => .error e
    | (.error e, _) => .error e

/-! ## Helper lemmas about the serializer writer -/

theorem writeBytes_written (bs : List ℕ) (st : SerState) :
    (writeBytes bs st).written = st.written ++ bs := rfl

theorem serializeSharedStr_appends (v : List ℕ) (st : SerState) :
    ∃ t, (serializeSharedStr v st).2.written = st.written ++ t := by
  unfold serializeSharedStr
  cases h : st.sharedStrings with
  | none => exact ⟨[], by simp⟩
  | some cache =>
    by_cases hl : 64 < v.length
    · exact ⟨[], by simp [hl]⟩
    · cases hg : scacheGet cache v with
      | some backref =>
        by_cases hb : backref ≤ 30
        · exact ⟨[backref + 1], by simp [hl, hg, hb, writeBytes]⟩
        · exact ⟨[0xec ||| (backref >>> 8), backref % 256], by
            simp [hl, hg, hb, writeBytes]⟩
      | none => exact ⟨[], by simp [hl, hg]⟩

theorem serializeStrSt_appends (v : List ℕ) (st : SerState) :
    ∃ t, (serializeStrSt v st).written = st.written ++ t := by
  unfold serializeStrSt
  by_cases he : v.isEmpty
  · exact ⟨[0x20], by simp [he, writeBytes]⟩
  · rw [if_neg (by simpa using he)]
    obtain ⟨t1, ht1⟩ := serializeSharedStr_appends v st
    rcases h : serializeSharedStr v st with ⟨flag, st2⟩
    rw [h] at ht1
    replace ht1 : st2.written = st.written ++ t1 := ht1
    cases flag with
    | true => exact ⟨t1, ht1⟩
    | false =>
      dsimp only
      split
      · exact ⟨t1 ++ _, by rw [writeBytes_written, ht1, List.append_assoc]⟩
      · split
        · exact ⟨t1 ++ _, by rw [writeBytes_written, ht1, List.append_assoc]⟩
        · exact ⟨t1 ++ _, by rw [writeBytes_written, ht1, List.append_assoc]⟩

theorem serializeBytesSt_appends (v : List ℕ) (st : SerState) :
    ∃ t, (serializeBytesSt v st).written = st.written ++ t := by
  unfold serializeBytesSt
  split
  · exact ⟨_, writeBytes_written _ _⟩
  · exact ⟨_, writeBytes_written _ _⟩

theorem serializeSharedProperty_appends (v : List ℕ) (st : SerState) :
    ∃ t, (serializeSharedProperty v st).2.written = st.written ++ t := by
  unfold serializeSharedProperty
  cases h : st.sharedProperties with
  | none => exact ⟨[], by simp⟩
  | some cache =>
    by_cases hl : 64 < v.length
    · exact ⟨[], by simp [hl]⟩
    · cases hg : scacheGet cache v with
      | some backref =>
        by_cases hb : backref ≤ 63
        · exact ⟨[0x40 + backref], by simp [hl, hg, hb, writeBytes]⟩
        · exact ⟨[0x30 ||| (backref >>> 8), backref % 256], by
            simp [hl, hg, hb, writeBytes]⟩
      | none => exact ⟨[], by simp [hl, hg]⟩

theorem serializeKeyStrSt_appends (v : List ℕ) (st : SerState) :
    ∃ t, (serializeKeyStrSt v st).written = st.written ++ t := by
  unfold serializeKeyStrSt
  by_cases he : v.isEmpty
  · exact ⟨[0x20], by simp [he, writeBytes]⟩
  · rw [if_neg (by simpa using he)]
    obtain ⟨t1, ht1⟩ := serializeSharedProperty_appends v st
    rcases h : serializeSharedProperty v st with ⟨flag, st2⟩
    rw [h] at ht1
    replace ht1 : st2.written = st.written ++ t1 := ht1
    cases flag with
    | true => exact ⟨t1, ht1⟩
    | false =>
      dsimp only
      split
      · exact ⟨t1 ++ _, by rw [writeBytes_written, ht1, List.append_assoc]⟩
      · split
        · exact ⟨t1 ++ _, by rw [writeBytes_written, ht1, List.append_assoc]⟩
        · exact ⟨t1 ++ _, by rw [writeBytes_written, ht1, List.append_assoc]⟩

/-- Every value-encoding step only appends to the writer; in particular no
step emits the header again. -/
theorem encodeValueSt_appends (v : Value) :
    ∀ st, ∃ t, (encodeValueSt v st).written = st.written ++ t := by
  refine @Value.rec
    (fun v => ∀ st, ∃ t, (encodeValueSt v st).written = st.written ++ t)
    (fun vs => ∀ st, ∃ t, (encodeSeqSt vs st).written = st.written ++ t)
    (fun kvs => ∀ st, ∃ t, (encodeObjSt kvs st).written = st.written ++ t)
    (fun kv => ∀ st, ∃ t,
      (encodeValueSt kv.2 (serializeKeyStrSt kv.1 st)).written = st.written ++ t)
    ?_ ?_ ?_ ?_ ?_ ?_ ?_ ?_ ?_ ?_ ?_ ?_ ?_ ?_ ?_ ?_ ?_ ?_ ?_ ?_ v
  · intro st
    rw [show encodeValueSt .null st = writeBytes [0x21] st from by simp [encodeValueSt]]
    exact ⟨_, rfl⟩
  · intro b st
    rw [show encodeValueSt (.boolean b) st
      = writeBytes [if b then 0x23 else 0x22] st from by simp [encodeValueSt]]
    exact ⟨_, rfl⟩
  · intro n st
    rw [show encodeValueSt (.integer n) st
      = writeBytes (serializeI32Bytes n) st from by simp [encodeValueSt]]
    exact ⟨_, rfl⟩
  · intro n st
    rw [show encodeValueSt (.long n) st
      = writeBytes (serializeI64Bytes n) st from by simp [encodeValueSt]]
    exact ⟨_, rfl⟩
  · intro n st
    rw [show encodeValueSt (.ulong n) st
      = writeBytes (serializeU64Bytes n) st from by simp [encodeValueSt]]
    exact ⟨_, rfl⟩
  · intro n st
    rw [show encodeValueSt (.int128 n) st
      = writeBytes (serializeI128Bytes n) st from by simp [encodeValueSt]]
    exact ⟨_, rfl⟩
  · intro n st
    rw [show encodeValueSt (.uint128 n) st
      = writeBytes (serializeU128Bytes n) st from by simp [encodeValueSt]]
    exact ⟨_, rfl⟩
  · intro bs st
    rw [show encodeValueSt (.bigInteger bs) st
      = writeBytes (0x26 :: serialize7BitBinary bs) st from by simp [encodeValueSt]]
    exact ⟨_, rfl⟩
  · intro bits st
    rw [show encodeValueSt (.float bits) st
      = writeBytes (serializeF32Bytes bits) st from by simp [encodeValueSt]]
    exact ⟨_, rfl⟩
  · intro bits st
    rw [show encodeValueSt (.double bits) st
      = writeBytes (serializeF64Bytes bits) st from by simp [encodeValueSt]]
    exact ⟨_, rfl⟩
  · intro scale bs st
    rw [show encodeValueSt (.bigDecimal scale bs) st
      = writeBytes ((0x2a :: serializeVint (zigzag32 scale)) ++ serialize7BitBinary bs) st
      from by simp [encodeValueSt]]
    exact ⟨_, rfl⟩
  · intro s st
    have := serializeStrSt_appends s st
    simpa [encodeValueSt] using this
  · intro bs st
    have := serializeBytesSt_appends bs st
    simpa [encodeValueSt] using this
  · intro vs ih st
    obtain ⟨t1, ht1⟩ := ih (writeBytes [0xf8] st)
    refine ⟨0xf8 :: t1 ++ [0xf9], ?_⟩
    rw [show encodeValueSt (.array vs) st
      = writeBytes [0xf9] (encodeSeqSt vs (writeBytes [0xf8] st)) from by
        simp [encodeValueSt]]
    rw [writeBytes_written, ht1, writeBytes_written]
    simp
  · intro kvs ih st
    obtain ⟨t1, ht1⟩ := ih (writeBytes [0xfa] st)
    refine ⟨0xfa :: t1 ++ [0xfb], ?_⟩
    rw [show encodeValueSt (.object kvs) st
      = writeBytes [0xfb] (encodeObjSt kvs (writeBytes [0xfa] st)) from by
        simp [encodeValueSt]]
    rw [writeBytes_written, ht1, writeBytes_written]
    simp
  · intro st
    exact ⟨[], by simp [encodeSeqSt]⟩
  · intro hd tl ih1 ih2 st
    obtain ⟨t1, ht1⟩ := ih1 st
    obtain ⟨t2, ht2⟩ := ih2 (encodeValueSt hd st)
    refine ⟨t1 ++ t2, ?_⟩
    rw [show encodeSeqSt (hd :: tl) st = encodeSeqSt tl (encodeValueSt hd st) from by
      simp [encodeSeqSt]]
    rw [ht2, ht1, List.append_assoc]
  · intro st
    exact ⟨[], by simp [encodeObjSt]⟩
  · intro hd tl ih1 ih2 st
    obtain ⟨t1, ht1⟩ := ih1 st
    obtain ⟨t2, ht2⟩ := ih2 (encodeValueSt hd.2 (serializeKeyStrSt hd.1 st))
    refine ⟨t1 ++ t2, ?_⟩
    rw [show encodeObjSt (hd :: tl) st
      = encodeObjSt tl (encodeValueSt hd.2 (serializeKeyStrSt hd.1 st)) from by
      cases hd
      simp [encodeObjSt]]
    rw [ht2, ht1, List.append_assoc]
  · intro k v2 ih st
    obtain ⟨t1, ht1⟩ := serializeKeyStrSt_appends k st
    obtain ⟨t2, ht2⟩ := ih (serializeKeyStrSt k st)
    exact ⟨t1 ++ t2, by rw [ht2, ht1, List.append_assoc]⟩

/-! ## Helper lemmas about the decoder -/

/-- Behaviour of `parse_short_string` on an exact-length prefix with the
value-string cache disabled. -/
theorem parseShortStringM_spec (bs rest : List ℕ) (st : DeState)
    (hin : st.input = bs ++ rest) (hutf : isValidUtf8 bs = true)
    (hcache : st.sharedStrings = none) :
    parseShortStringM bs.length st = (.ok (.string bs), { st with input := rest }) := by
  have h1 : readN bs.length st = (.ok bs, { st with input := rest }) := by
    unfold readN
    rw [hin, if_pos (by simp), List.take_left, List.drop_left]
  unfold parseShortStringM
  rw [h1]
  dsimp only
  rw [if_pos hutf]
  unfold internSharedValues
  simp [hcache]

/-- Dispatch step for the `0xF8` array opener. -/
theorem parseValueF_array_step (f : ℕ) (st : DeState) (rest : List ℕ)
    (hin : st.input = 0xf8 :: rest) :
    parseValueF (f + 1) st = parseArrayF f { st with input := rest } := by
  have hu8 : parseU8 st = (.ok 0xf8, { st with input := rest }) := by
    simp [parseU8, hin]
  simp only [parseValueF]
  rw [hu8]
  simp [parseArrayF]

/-- Dispatch step for the `0xFA` map opener. -/
theorem parseValueF_map_step (f : ℕ) (st : DeState) (rest : List ℕ)
    (hin : st.input = 0xfa :: rest) :
    parseValueF (f + 1) st = parseMapF f { st with input := rest } := by
  have hu8 : parseU8 st = (.ok 0xfa, { st with input := rest }) := by
    simp [parseU8, hin]
  simp only [parseValueF]
  rw [hu8]
  simp [parseMapF]

/-- The first conjunct of the recursion discipline: descending with only one
unit of budget left (the decrement reaches zero) fails with
`recursionLimitExceeded` without touching the input. -/
theorem recursionChecked_exhausted {α : Type} (g : DeM α) (st : DeState)
    (h : st.depth = 1) :
    recursionChecked g st = (.error .recursionLimitExceeded, { st with depth := 0 }) := by
  unfold recursionChecked
  simp [h]

/-- The second conjunct: with budget at least two, the body runs at the
decremented depth and the depth is incremented again on exit no matter what
the body returned. -/
theorem recursionChecked_run {α : Type} (g : DeM α) (st : DeState)
    (h : 2 ≤ st.depth) :
    recursionChecked g st =
      ((g { st with depth := st.depth - 1 }).1,
        { (g { st with depth := st.depth - 1 }).2 with
            depth := (g { st with depth := st.depth - 1 }).2.depth + 1 }) := by
  unfold recursionChecked
  rw [if_neg (by simp; omega)]

/-- Decoding nested array openers with remaining depth `d ≤ n` always hits
the recursion limit (with fuel to spare). -/
theorem parse_nested_arrays_error :
    ∀ d, 1 ≤ d → ∀ f n ss sp, d ≤ n → 2 * d ≤ f →
      ∃ stE, parseValueF f ⟨List.replicate n 0xf8, d, ss, sp⟩
        = (.error .recursionLimitExceeded, stE) := by
  intro d
  induction d with
  | zero => intro h; exact absurd h (by norm_num)
  | succ d ih =>
    intro hd1 f n ss sp hn hf
    obtain ⟨m, rfl⟩ : ∃ m, n = m + 1 := ⟨n - 1, by omega⟩
    obtain ⟨f1, rfl⟩ : ∃ f1, f = f1 + 1 := ⟨f - 1, by omega⟩
    rw [parseValueF_array_step f1 ⟨List.replicate (m + 1) 0xf8, d + 1, ss, sp⟩
      (List.replicate m 0xf8) (by simp [List.replicate_succ])]
    rw [show ({ (⟨List.replicate (m + 1) 0xf8, d + 1, ss, sp⟩ : DeState) with
        input := List.replicate m 0xf8 } : DeState)
      = ⟨List.replicate m 0xf8, d + 1, ss, sp⟩ from rfl]
    unfold parseArrayF
    by_cases hd0 : d = 0
    · subst hd0
      rw [recursionChecked_exhausted _ _ rfl]
      exact ⟨_, rfl⟩
    · rw [recursionChecked_run _ _ (by simp; omega)]
      obtain ⟨f2, rfl⟩ : ∃ f2, f1 = f2 + 1 := ⟨f1 - 1, by omega⟩
      obtain ⟨m1, rfl⟩ : ∃ m1, m = m1 + 1 := ⟨m - 1, by omega⟩
      rw [show ({ (⟨List.replicate (m1 + 1) 0xf8, d + 1, ss, sp⟩ : DeState) with
          depth := (⟨List.replicate (m1 + 1) 0xf8, d + 1, ss, sp⟩ : DeState).depth - 1 }
          : DeState) = ⟨List.replicate (m1 + 1) 0xf8, d, ss, sp⟩ from rfl]
      obtain ⟨stE, hE⟩ := ih (by omega) f2 (m1 + 1) ss sp (by omega) (by omega)
      have helems : parseSeqElemsF (f2 + 1) ⟨List.replicate (m1 + 1) 0xf8, d, ss, sp⟩
          = (.error .recursionLimitExceeded, stE) := by
        simp only [parseSeqElemsF]
        rw [show (⟨List.replicate (m1 + 1) 0xf8, d, ss, sp⟩ : DeState).input.head?
          = some 0xf8 from by simp [List.replicate_succ]]
        dsimp only
        rw [if_neg (by norm_num)]
        rw [hE]
      rw [helems]
      exact ⟨_, rfl⟩

/-! ## Decimal rendering lemmas -/

theorem natDecAux_length_le : ∀ fuel n k, n < 10 ^ k → (natDecAux fuel n).length ≤ k := by
  intro fuel
  induction fuel with
  | zero => intro n k h; simp [natDecAux]
  | succ f ih =>
    intro n k h
    unfold natDecAux
    by_cases hn : n = 0
    · simp [hn]
    · rw [if_neg hn]
      have hk : 1 ≤ k := by
        by_contra hk
        push_neg at hk
        have : k = 0 := by omega
        subst this
        simp at h
        omega
      have h2 : n < 10 * 10 ^ (k - 1) := by
        have hp : 10 * 10 ^ (k - 1) = 10 ^ k := by
          rw [← pow_succ']
          congr 1
          omega
        omega
      have := ih (n / 10) (k - 1) (Nat.div_lt_of_lt_mul (by omega))
      simp only [List.length_append, List.length_cons, List.length_nil]
      omega

theorem natDecAux_ascii : ∀ fuel n, ∀ b ∈ natDecAux fuel n, b < 128 := by
  intro fuel
  induction fuel with
  | zero => intro n b hb; simp [natDecAux] at hb
  | succ f ih =>
    intro n b hb
    unfold natDecAux at hb
    by_cases hn : n = 0
    · simp [hn] at hb
    · rw [if_neg hn] at hb
      rcases List.mem_append.mp hb with h | h
      · exact ih _ _ h
      · have : b = n % 10 + 48 := by simpa using h
        have : n % 10 < 10 := Nat.mod_lt n (by norm_num)
        omega

theorem natDecAux_ne_nil (f n : ℕ) (hn : n ≠ 0) : natDecAux (f + 1) n ≠ [] := by
  unfold natDecAux
  rw [if_neg hn]
  simp

theorem intDec_facts (v : ℤ) (h1 : -(2 ^ 127) ≤ v) (h2 : v < 2 ^ 128) :
    1 ≤ (intDec v).length ∧ (intDec v).length ≤ 40 ∧ isAsciiList (intDec v) = true := by
  have hdigits : ∀ n : ℕ, n < 10 ^ 39 →
      1 ≤ (natDec n).length ∧ (natDec n).length ≤ 39 ∧ ∀ b ∈ natDec n, b < 128 := by
    intro n hb
    unfold natDec
    by_cases hn : n = 0
    · simp [hn]
    · rw [if_neg hn]
      obtain ⟨f, rfl⟩ : ∃ f, n = f + 1 := ⟨n - 1, by omega⟩
      refine ⟨?_, natDecAux_length_le _ _ _ hb, natDecAux_ascii _ _⟩
      have := natDecAux_ne_nil f (f + 1) hn
      cases he : natDecAux (f + 1) (f + 1) with
      | nil => exact absurd he this
      | cons a tail => simp
  unfold intDec
  by_cases hv : v < 0
  · rw [if_pos hv]
    have hlt : (-v).toNat < 10 ^ 39 := by
      have : (2 : ℤ) ^ 127 < 10 ^ 39 := by norm_num
      omega
    obtain ⟨ha, hb, hc⟩ := hdigits (-v).toNat hlt
    refine ⟨by simp only [List.length_cons]; omega,
      by simp only [List.length_cons]; omega, ?_⟩
    simp only [isAsciiList, List.all_cons, List.all_eq_true, Bool.and_eq_true,
      decide_eq_true_eq]
    exact ⟨by norm_num, fun b hb2 => hc b hb2⟩
  · rw [if_neg hv]
    have hlt : v.toNat < 10 ^ 39 := by
      have : (2 : ℤ) ^ 128 < 10 ^ 39 := by norm_num
      omega
    obtain ⟨ha, hb, hc⟩ := hdigits v.toNat hlt
    refine ⟨ha, by omega, ?_⟩
    simp only [isAsciiList, List.all_eq_true, decide_eq_true_eq]
    exact fun b hb2 => hc b hb2

/-! ## Claim theorems -/

/-- Claim C1 (code bug): the round-trip law `decode(encode(v)) = v` fails on
this code.  Failing input: the 32-bit integer `16` under the default
configuration.  `serialize_i32` compares `zigzag <= 32`, so for `v = 16`
(ZigZag 32) it emits the single byte `0xC0 + 32 = 0xE0` — the long-ASCII-
string token — and the document `to_vec(16)` comes back from `from_slice`
as an `EofWhileParsingValue` error instead of `Integer(16)`. -/
theorem C1_roundtrip_bug :
    toVec (.integer 16) = [0x3a, 0x29, 0x0a, 0x05, 0xe0] ∧
    fromSlice (toVec (.integer 16)) = .error .eofWhileParsingValue ∧
    fromSlice (toVec (.integer 16)) ≠ .ok (.integer 16) := by
  have h : toVec (.integer 16) = [0x3a, 0x29, 0x0a, 0x05, 0xe0] := by
    simp only [toVec, encodeValueSt]
    rfl
  refine ⟨h, ?_, ?_⟩
  · rw [h]
    rfl
  · rw [h]
    intro hc
    rw [show fromSlice [0x3a, 0x29, 0x0a, 0x05, 0xe0]
      = .error .eofWhileParsingValue from rfl] at hc
    exact Except.noConfusion hc

/-- Claim C2 (code bug): 7-bit packing emits one extra byte when the input
length is a multiple of seven.  `serialize_7_bit_binary` writes
`buf[..remainder + 1]` unconditionally, so the empty byte string packs to
the length VInt `0x80` followed by a stray `0x00`; `parse_7_bit_binary`
computes the encoded length `8 * (len / 7) + (rem == 0 ? 0 : rem + 1) = 0`,
returns the right value, and leaves the stray byte unconsumed (later
`TrailingData`).  A 7-byte input similarly occupies 9 payload bytes instead
of the 8 the claim (and the decoder) state. -/
theorem C2_seven_bit_extra_byte :
    serialize7BitBinary [] = [0x80, 0x00] ∧
    serializeVint 0 = [0x80] ∧
    parse7BitList [0x80, 0x00] = .ok ([], [0x00]) ∧
    (serialize7BitBinary (List.replicate 7 0xab)).length
      = (serializeVint 7).length + 9 ∧
    8 * (7 / 7) + 0 = 8 ∧ (9 : ℕ) ≠ 8 :=
  ⟨by decide, by decide, rfl, by decide, by decide, by decide⟩

/-- Claim C3 (code bug): the `raw_binary` option does not default to false.
`Serializer::builder()` initializes `raw_binary: true` (contradicting the
crate documentation "Disabled by default" in `src/lib.rs`), so a default
serializer writes the header flag byte `0x05` (raw-binary bit 2 set) and
encodes bytes `[0xDE, 0xAD, 0xBE, 0xEF]` with the `0xFD` raw framing
instead of `0xE8` plus 7-bit packing. -/
theorem C3_raw_binary_default :
    Serializer.builder.rawBinary = true ∧
    buildFlags Serializer.builder = 0x05 ∧
    (0x05 >>> 2) &&& 1 = 1 ∧
    (Builder.build Serializer.builder).written = [0x3a, 0x29, 0x0a, 0x05] ∧
    (serializeBytesSt [0xde, 0xad, 0xbe, 0xef] (Builder.build Serializer.builder)).written
      = [0x3a, 0x29, 0x0a, 0x05, 0xfd, 0x84, 0xde, 0xad, 0xbe, 0xef] ∧
    (serializeBytesSt [0xde, 0xad, 0xbe, 0xef] (Builder.build Serializer.builder)).written
      ≠ [0x3a, 0x29, 0x0a, 0x05] ++ 0xe8 :: serialize7BitBinary [0xde, 0xad, 0xbe, 0xef] := by
  decide

/-- Claim C4 (code bug): the small-integer token is not chosen exactly when
`ZigZag(v) < 32`.  `serialize_i32` tests `zigzag <= 32`, so `v = 16`
(ZigZag exactly 32) emits the single byte `0xE0` — outside the small-int
token range `0xC0..0xDF` and colliding with the long-ASCII-string token —
instead of `0x24` followed by the ZigZag VInt `[0xA0]`; the decoder then
fails on the emitted byte. -/
theorem C4_small_int_boundary :
    zigzag32 16 = 32 ∧
    serializeI32Bytes 16 = [0xe0] ∧
    serializeI32Bytes 16 ≠ 0x24 :: serializeVint 32 ∧
    0x24 :: serializeVint 32 = [0x24, 0xa0] ∧
    ¬(0xc0 + 32 ≤ 0xdf) ∧
    parseValueF 2 ⟨[0xe0], 128, none, none⟩
      = (.error .eofWhileParsingValue, ⟨[], 128, none, none⟩) :=
  ⟨by decide, by decide, by decide, by decide, by decide, rfl⟩

/-- Claim C5 (code bug): unsigned values that overflow the signed width are
emitted without the sign-preserving zero byte.  `serialize_u64` passes
`v.to_be_bytes()` (eight bytes) straight to the big-integer emission, so for
`v = 2^63` the payload starts with `0x80`, its two's-complement reading is
`-2^63`, and decoding the document yields `Long(-2^63)` instead of the
original non-negative value.  The claim's zero-prepended payload is not what
the code produces. -/
theorem C5_unsigned_big_integer :
    serializeU64Bytes 9223372036854775808
      = 0x26 :: serialize7BitBinary (beBytes 8 9223372036854775808) ∧
    beBytes 8 9223372036854775808 = [0x80, 0, 0, 0, 0, 0, 0, 0] ∧
    serializeU64Bytes 9223372036854775808
      ≠ 0x26 :: serialize7BitBinary (0x00 :: beBytes 8 9223372036854775808) ∧
    signExtendBe [0x80, 0, 0, 0, 0, 0, 0, 0] = -9223372036854775808 ∧
    fromSlice ([0x3a, 0x29, 0x0a, 0x00] ++ serializeU64Bytes 9223372036854775808)
      = .ok (.long (-9223372036854775808)) :=
  ⟨by decide, by decide, by decide, by decide, rfl⟩

/-- Claim C6 counterexample: the claim as stated is false for the lead byte
`0xBF`.  The dispatch maps `0xA0 ≤ t ≤ 0xBF` to length `t - (0xA0 - 34)`, so
`0xBF` reads a 65-byte string — outside the claimed range 34 through 64. -/
theorem C6_counterexample :
    parseValueF 2 ⟨0xbf :: List.replicate 65 97, 128, none, none⟩
      = (.ok (.string (List.replicate 65 97)), ⟨[], 128, none, none⟩) ∧
    (List.replicate 65 97).length = 65 ∧ ¬((65 : ℕ) ≤ 64) :=
  ⟨rfl, by decide, by decide⟩

/-- Claim C6 (amended): for every lead byte `t` with `0x80 ≤ t ≤ 0x9F` the
decoder parses a short string of byte length `t - 0x80 + 2` (range 2 through
33), and for `0xA0 ≤ t ≤ 0xBF` one of byte length `t - 0xA0 + 34` — range 34
through 65, not 64: both families read `t - 126` bytes. -/
theorem C6_short_string_lengths (t f : ℕ) (st : DeState) (bs rest : List ℕ)
    (h1 : 0x80 ≤ t) (h2 : t ≤ 0xbf)
    (hin : st.input = t :: (bs ++ rest))
    (hlen : bs.length = t - 126)
    (hutf : isValidUtf8 bs = true)
    (hcache : st.sharedStrings = none) :
    parseValueF (f + 1) st = (.ok (.string bs), { st with input := rest }) ∧
    (t ≤ 0x9f → t - 126 = t - 0x80 + 2 ∧ 2 ≤ t - 126 ∧ t - 126 ≤ 33) ∧
    (0xa0 ≤ t → t - 126 = t - 0xa0 + 34 ∧ 34 ≤ t - 126 ∧ t - 126 ≤ 65) := by
  refine ⟨?_, fun h => ⟨by omega, by omega, by omega⟩,
    fun h => ⟨by omega, by omega, by omega⟩⟩
  have hu8 : parseU8 st = (.ok t, { st with input := bs ++ rest }) := by
    simp [parseU8, hin]
  have hspec := parseShortStringM_spec bs rest { st with input := bs ++ rest }
    rfl hutf hcache
  simp only [parseValueF]
  rw [hu8]
  dsimp only
  iterate 16 rw [if_neg (by omega : ¬_)]
  by_cases h9f : t ≤ 0x9f
  · rw [if_pos h9f, ← hlen]
    exact hspec
  · rw [if_neg h9f, if_pos (by omega), ← hlen]
    exact hspec

/-- Claim C6 witness: lead byte `0x85` reads a seven-byte string. -/
theorem C6_witness :
    parseValueF 3 ⟨0x85 :: (List.replicate 7 97 ++ [0xff]), 128, none, none⟩
      = (.ok (.string (List.replicate 7 97)), ⟨[0xff], 128, none, none⟩) := by
  have h := C6_short_string_lengths 0x85 2
    ⟨0x85 :: (List.replicate 7 97 ++ [0xff]), 128, none, none⟩
    (List.replicate 7 97) [0xff]
    (by norm_num) (by norm_num) rfl (by decide) (by decide) rfl
  exact h.1

/-- Claim C7 counterexample: a serializer that never encodes a value has
already written the four header bytes, because `Builder::build` writes the
header immediately rather than deferring it to the first token. -/
theorem C7_counterexample :
    (Builder.build Serializer.builder).written = [0x3a, 0x29, 0x0a, 0x05] ∧
    (Builder.build Serializer.builder).written ≠ [] := by
  decide

/-- Claim C7 (amended): the header is emitted exactly once, by
`Builder::build` at construction time (so a serializer that never encodes a
value has still written exactly the four header bytes); every value
serialization only appends token bytes to the writer and never writes the
header again, and `Serializer::end` appends only the `0xFF` marker. -/
theorem C7_header_once :
    (∀ b : Builder, (Builder.build b).written = [0x3a, 0x29, 0x0a, buildFlags b]) ∧
    (∀ (v : Value) (st : SerState), ∃ t, (encodeValueSt v st).written = st.written ++ t) ∧
    (∀ st : SerState, (serializerEnd st).written = st.written ++ [0xff]) :=
  ⟨fun _ => rfl, fun v st => encodeValueSt_appends v st, fun _ => rfl⟩

/-- Claim C8 (confirmed): the recursion budget starts at 128
(`Deserializer::new`); `recursion_checked` decrements it on entry, fails
with `recursionLimitExceeded` without consuming input when the decrement
reaches zero, and restores it on exit whether or not the body succeeded; the
array and map dispatch branches descend through `recursion_checked`; and the
document of 128 nested array openers fails with the recursion-limit error. -/
theorem C8_recursion_budget :
    (∀ bytes st, newDeserializer bytes = .ok st → st.depth = 128) ∧
    (∀ (α : Type) (g : DeM α) (st : DeState), st.depth = 1 →
      recursionChecked g st = (.error .recursionLimitExceeded, { st with depth := 0 })) ∧
    (∀ (α : Type) (g : DeM α) (st : DeState), 2 ≤ st.depth →
      recursionChecked g st =
        ((g { st with depth := st.depth - 1 }).1,
          { (g { st with depth := st.depth - 1 }).2 with
              depth := (g { st with depth := st.depth - 1 }).2.depth + 1 })) ∧
    (∀ (f : ℕ) (st : DeState) (rest : List ℕ), st.input = 0xf8 :: rest →
      parseValueF (f + 1) st = parseArrayF f { st with input := rest }) ∧
    (∀ (f : ℕ) (st : DeState) (rest : List ℕ), st.input = 0xfa :: rest →
      parseValueF (f + 1) st = parseMapF f { st with input := rest }) ∧
    fromSlice ([0x3a, 0x29, 0x0a, 0x00] ++ List.replicate 128 0xf8)
      = .error .recursionLimitExceeded := by
  refine ⟨?_, fun α g st h => recursionChecked_exhausted g st h,
    fun α g st h => recursionChecked_run g st h,
    fun f st rest h => parseValueF_array_step f st rest h,
    fun f st rest h => parseValueF_map_step f st rest h, ?_⟩
  · intro bytes st h
    rcases bytes with _ | ⟨m1, _ | ⟨m2, _ | ⟨m3, _ | ⟨info, rest⟩⟩⟩⟩ <;>
      simp only [newDeserializer] at h
    · exact absurd h (by simp)
    · exact absurd h (by simp)
    · exact absurd h (by simp)
    · exact absurd h (by simp)
    · split_ifs at h
      all_goals injection h with h2
      all_goals rw [← h2]
  · have hnew : newDeserializer ([0x3a, 0x29, 0x0a, 0x00] ++ List.replicate 128 0xf8)
        = .ok ⟨List.replicate 128 0xf8, 128, none, none⟩ := rfl
    obtain ⟨stE, hE⟩ := parse_nested_arrays_error 128 (by norm_num) (2 * 128 + 2) 128
      none none (by norm_num) (by norm_num)
    unfold fromSlice
    rw [hnew]
    dsimp only
    simp only [List.length_replicate]
    rw [hE]

/-- Claim C8 witness: descending with one unit of budget left fails without
consuming the input byte. -/
theorem C8_witness :
    recursionChecked (deOk (0 : ℕ)) ⟨[7], 1, none, none⟩
      = (.error .recursionLimitExceeded, ⟨[7], 0, none, none⟩) :=
  C8_recursion_budget.2.1 ℕ (deOk 0) ⟨[7], 1, none, none⟩ rfl

/-- Claim C9 counterexample: the one-byte sequence `[0xFF]` is accepted by
`parse_vint` (which masks the terminal byte with `0x7F`, not `0x3F`) and
decodes to 127, while the encoder's output for 127 has two bytes — so as
stated, an encoding with fewer bytes than the encoder's does decode to `u`. -/
theorem C9_counterexample :
    parseVintList 10 0 [0xff] = .ok (127, []) ∧
    serializeVint 127 = [0x01, 0xbf] ∧
    1 < (serializeVint 127).length :=
  ⟨rfl, by decide, by decide⟩

/-- Claim C9 (amended): for every `u64` the decoder returns exactly the
encoded value with the following bytes untouched, and among well-formed VInt
sequences (non-final bytes below `0x80`, final byte in `0x80..0xBF`, i.e.
carrying only its six payload bits) none shorter than the encoder output
decodes to the same value. -/
theorem C9_vint_roundtrip_minimal :
    (∀ u, u < 18446744073709551616 →
      ∀ rest, parseVintList 10 0 (serializeVint u ++ rest) = .ok (u, rest)) ∧
    (∀ pre rest u, vintWellFormed pre = true →
      parseVintList 10 0 (pre ++ rest) = .ok (u, rest) →
      (serializeVint u).length ≤ pre.length) :=
  ⟨fun u hu rest => serializeVint_roundtrip u hu rest,
   fun pre rest u hwf hp => vint_minimal pre rest u hwf hp⟩

/-- Claim C9 witness: round-trip at 300 and minimality against the
well-formed two-byte encoding `[0x04, 0xAC]` of 300. -/
theorem C9_witness :
    parseVintList 10 0 (serializeVint 300 ++ [9]) = .ok (300, [9]) ∧
    (serializeVint 300).length ≤ 2 :=
  ⟨C9_vint_roundtrip_minimal.1 300 (by norm_num) [9],
   by
    have h := C9_vint_roundtrip_minimal.2 [0x04, 0xac] [] 300 (by decide) rfl
    simpa using h⟩

/-- Claim C10 (confirmed): an integer map key of any width is serialized as
its base-ten ASCII rendering through the key-token string families: the
emission delegates to the string key path on the `itoa` digits, and in the
non-back-reference case it writes the ASCII short-key token
`0x80 + len - 1` (always inside the key string family `0x80..0xBF`)
followed by the digit bytes — never a numeric value token. -/
theorem C10_integer_keys (v : ℤ) (st : SerState)
    (h1 : -(2 ^ 127) ≤ v) (h2 : v < 2 ^ 128) :
    serializeIntKeySt v st = serializeKeyStrSt (intDec v) st ∧
    (1 ≤ (intDec v).length ∧ (intDec v).length ≤ 40 ∧ isAsciiList (intDec v) = true) ∧
    (128 ≤ 0x80 + (intDec v).length - 1 ∧ 0x80 + (intDec v).length - 1 ≤ 0xbf) ∧
    (st.sharedProperties = none →
      (serializeIntKeySt v st).written
        = st.written ++ (0x80 + (intDec v).length - 1) :: intDec v) ∧
    (∀ cache, st.sharedProperties = some cache → scacheGet cache (intDec v) = none →
      (serializeIntKeySt v st).written
        = st.written ++ (0x80 + (intDec v).length - 1) :: intDec v) := by
  obtain ⟨hlen1, hlen2, hascii⟩ := intDec_facts v h1 h2
  have hne : (intDec v).isEmpty = false := by
    cases he : intDec v with
    | nil => rw [he] at hlen1; simp at hlen1
    | cons a tail => simp
  have hcond : (intDec v).length ≤ 64 ∧ isAsciiList (intDec v) = true :=
    ⟨by omega, hascii⟩
  refine ⟨rfl, ⟨hlen1, hlen2, hascii⟩, ⟨by omega, by omega⟩, ?_, ?_⟩
  · intro hnone
    unfold serializeIntKeySt serializeKeyStrSt
    simp only [hne, Bool.false_eq_true, if_false]
    have hsp : serializeSharedProperty (intDec v) st = (false, st) := by
      unfold serializeSharedProperty
      rw [hnone]
    rw [hsp]
    dsimp only
    rw [if_pos hcond]
    rfl
  · intro cache hsome hget
    unfold serializeIntKeySt serializeKeyStrSt
    simp only [hne, Bool.false_eq_true, if_false]
    have hsp : serializeSharedProperty (intDec v) st
        = (false, { st with sharedProperties := some (scacheIntern cache (intDec v)) }) := by
      unfold serializeSharedProperty
      rw [hsome]
      dsimp only
      rw [if_neg (by omega)]
      rw [hget]
    rw [hsp]
    dsimp only
    rw [if_pos hcond]
    rfl

/-- Claim C10 witness: the `u32` key 42 is emitted as the two-character
ASCII short key token `0x81` followed by the digits of the string 42. -/
theorem C10_witness :
    (serializeIntKeySt 42 (Builder.build Serializer.builder)).written
      = [0x3a, 0x29, 0x0a, 0x05, 0x81, 0x34, 0x32] := by
  have h := (C10_integer_keys 42 (Builder.build Serializer.builder)
    (by norm_num) (by norm_num)).2.2.2.2 [] rfl rfl
  rw [show intDec 42 = [0x34, 0x32] from by decide] at h
  simpa using h

end SerdeSmile
